import Mathlib

/-!
Verification development for the Feishu inbound-event-to-outbound-reply
pipeline (clawdbot Feishu extension).

Strings manipulated character-by-character by the chunking algorithm
(src/extensions/feishu/src/format.ts) are embedded as `List Char`;
the monitor/gate code (src/extensions/feishu/src/threading.ts,
src/extensions/feishu/src/monitor/*) is embedded over Lean `String` and
`Option`.  JavaScript `undefined` becomes `none`; JS truthiness tests on
strings (`if (!chatId)`) are embedded as explicit none-or-empty checks.

Collaborators that live in the clawdbot core (outside this tree) are
modelled from the spec; each such definition carries a doc comment that
starts with "Modelled from the spec:".
-/

namespace Clawdbot

/-! ## Reply chunker (src/extensions/feishu/src/format.ts, chunkFeishuText) -/

/-- Whitespace as removed by JavaScript `String.prototype.trim` (ASCII
whitespace plus NBSP; the remaining Unicode space code points are omitted,
which is sound for every claim: only membership in a fixed whitespace set
matters). -/
def isJsWhitespace (c : Char) : Bool :=
  c = ' ' || c = '\t' || c = '\n' || c = '\r' ||
  c = (Char.ofNat 11) || c = (Char.ofNat 12) || c = (Char.ofNat 160)

/-- JS `s.trim()` on the character list embedding: drop whitespace from
both ends. -/
def jsTrim (s : List Char) : List Char :=
  ((s.dropWhile isJsWhitespace).reverse.dropWhile isJsWhitespace).reverse

/-- Helper for `jsLastIndexOf`: largest index `j ≤ i` at which `sub`
occurs in `s`, scanning downward from `i`. -/
def jsLastIndexOfAux (s sub : List Char) : Nat → Option Nat
  | 0 => if sub.isPrefixOf s then some 0 else none
  | j + 1 =>
    if sub.isPrefixOf (s.drop (j + 1)) then some (j + 1)
    else jsLastIndexOfAux s sub j

/-- JS `s.lastIndexOf(sub, fromIdx)` for nonempty `sub`: the largest start
index `j ≤ fromIdx` at which `sub` occurs in `s` (`none` embeds JS `-1`). -/
def jsLastIndexOf (s sub : List Char) (fromIdx : Nat) : Option Nat :=
  jsLastIndexOfAux s sub fromIdx

/-- The source's `candidate > maxLength * 0.5` test (format.ts lines
194/199/204): a found index `j` qualifies iff `j > m / 2`, i.e. `2*j > m`
(exact over the integers; `-1`, embedded as `none`, never qualifies). -/
def acceptBreak (m : Nat) : Option Nat → Option Nat
  | some j => if m < 2 * j then some j else none
  | none => none

/-- Break point chosen by `chunkFeishuText` for a remainder longer than
`maxLength` (format.ts lines 189-208): last `"\n\n"` at or before
`maxLength`, else last `"\n"`, else last `" "`, each accepted only beyond
`maxLength * 0.5`; default `maxLength`. -/
def findBreakPoint (remaining : List Char) (maxLength : Nat) : Nat :=
  match acceptBreak maxLength (jsLastIndexOf remaining ['\n', '\n'] maxLength) with
  | some j => j
  | none =>
    match acceptBreak maxLength (jsLastIndexOf remaining ['\n'] maxLength) with
    | some j => j
    | none =>
      match acceptBreak maxLength (jsLastIndexOf remaining [' '] maxLength) with
      | some j => j
      | none => maxLength

/-- The `while (remaining.length > 0)` loop of `chunkFeishuText`
(format.ts lines 183-212).  `fuel` bounds the number of iterations; the
source loop is unbounded, and `chunkLoop_fuel_irrelevant` below shows that
for `1 ≤ maxLength` any fuel `≥ remaining.length` computes the loop's
limit, which is the termination argument (for `maxLength = 0` the source
loop need not terminate). -/
def chunkLoop (maxLength : Nat) : Nat → List Char → List (List Char)
  | _, [] => []
  | 0, _ => []
  | fuel + 1, remaining =>
    if remaining.length ≤ maxLength then [remaining]
    else
      let breakPoint := findBreakPoint remaining maxLength
      jsTrim (remaining.take breakPoint) ::
        chunkLoop maxLength fuel (jsTrim (remaining.drop breakPoint))

/-- `chunkFeishuText(text, maxLength)` (format.ts lines 175-215). -/
def chunkFeishuText (text : List Char) (maxLength : Nat) : List (List Char) :=
  if text.length ≤ maxLength then [text]
  else chunkLoop maxLength text.length text

/-! Spec-side rendering of the chunking algorithm (spec §4.6), written
from the spec's words, to be compared with `chunkFeishuText`:
"choose a break point by trying, in order, the last paragraph break
(`\n\n`), then the last single newline, then the last space, each only if
it lies beyond `maxLength * 0.5`; if none qualifies, break exactly at
`maxLength`"; each emitted chunk is the trimmed prefix, the remainder the
trimmed suffix. -/

/-- Spec §4.6 break point: the first candidate in the stated order that
lies at or before `m` and beyond `m * 0.5`, else exactly `m`. -/
def specBreakPoint (remaining : List Char) (m : Nat) : Nat :=
  let candidates : List (Option Nat) :=
    [jsLastIndexOf remaining ['\n', '\n'] m,
     jsLastIndexOf remaining ['\n'] m,
     jsLastIndexOf remaining [' '] m]
  ((candidates.filterMap (acceptBreak m)).head?).getD m

/-- Spec §4.6 chunking loop: while text remains, emit it whole if it fits,
else emit the trimmed prefix up to the chosen break point and continue on
the trimmed suffix. -/
def chunkSpecLoop (m : Nat) : Nat → List Char → List (List Char)
  | _, [] => []
  | 0, _ => []
  | fuel + 1, remaining =>
    if remaining.length ≤ m then [remaining]
    else
      jsTrim (remaining.take (specBreakPoint remaining m)) ::
        chunkSpecLoop m fuel (jsTrim (remaining.drop (specBreakPoint remaining m)))

/-- Spec §4.6 chunker: a text within the limit is one chunk, otherwise the
loop runs. -/
def chunkSpec (text : List Char) (m : Nat) : List (List Char) :=
  if text.length ≤ m then [text] else chunkSpecLoop m text.length text

/-- Characters that survive whitespace trimming: the non-whitespace
content of a text, in order. -/
def nonWsContent (s : List Char) : List Char :=
  s.filter (fun c => !isJsWhitespace c)

/-! ## Feishu message model and threading
(src/extensions/feishu/src/types.ts, threading.ts) -/

/-- A tag of a Feishu rich-text ("post") paragraph as read by the text
extractors (monitor/message-handler.ts lines 144-181); only the fields the
extractors touch are modelled. -/
structure FeishuPostTag where
  tag : String
  text : Option String := none
  user_name : Option String := none
  user_id : Option String := none
deriving Repr, DecidableEq

/-- A parsed post body: `{title?, content?}`. -/
structure FeishuPostBody where
  title : Option String := none
  content : Option (List (List FeishuPostTag)) := none
deriving Repr, DecidableEq

/-- The parsed value of a Feishu message's `content` JSON string, by shape:
`textContent` for an object read as `{text?}`, `postContent` for a rich-text
body keyed `zh_cn`/`en_us`, `otherContent` for any other well-formed payload
(image, file, ...), `invalid` when `JSON.parse` throws. -/
inductive FeishuContent where
  | textContent (text : Option String)
  | postContent (zh_cn : Option FeishuPostBody) (en_us : Option FeishuPostBody)
  | otherContent
  | invalid
deriving Repr, DecidableEq

/-- A Feishu inbound message (src/extensions/feishu/src/types.ts), restricted
to the fields the monitor reads; `none` embeds JS `undefined`; each entry of
`mentions` is that mention's `id?.open_id`. -/
structure FeishuMessage where
  message_id : Option String := none
  root_id : Option String := none
  parent_id : Option String := none
  chat_id : Option String := none
  chat_type : Option String := none
  message_type : Option String := none
  content : Option FeishuContent := none
  mentions : Option (List (Option String)) := none
  create_time : Option Nat := none
deriving Repr, DecidableEq

/-- JS `s.trim()` on `String`, via the character-list trim (Lean's own
`String.trim` is not used so that concrete runs reduce inside the kernel). -/
def jsStrTrim (s : String) : String := String.mk (jsTrim s.toList)

/-- JS `s.toLowerCase()` (ASCII case folding, which covers every identifier
and policy literal the monitor compares). -/
def jsToLower (s : String) : String := String.mk (s.toList.map Char.toLower)

/-- JS `s.startsWith(p)`. -/
def jsStartsWith (s p : String) : Bool := p.toList.isPrefixOf s.toList

/-- JS `s?.trim() || undefined` (threading.ts lines 26-28): trim, then
collapse an empty result to `undefined`. -/
def normBlank (s : Option String) : Option String :=
  match s with
  | none => none
  | some v => if jsStrTrim v = "" then none else some (jsStrTrim v)

/-- `FeishuThreadContext` (threading.ts lines 3-9). -/
structure FeishuThreadContext where
  rootId : Option String := none
  parentId : Option String := none
  isThreadReply : Bool
  replyToId : Option String := none
  messageThreadId : Option String := none
deriving Repr, DecidableEq

/-- `resolveFeishuThreadContext` (threading.ts lines 21-48): no root id means
a top-level message whose own id is the thread id; otherwise a thread reply
whose reply target is the parent when present, else the root, and whose
thread id is the root. -/
def resolveFeishuThreadContext (message : FeishuMessage) : FeishuThreadContext :=
  let rootId := normBlank message.root_id
  let parentId := normBlank message.parent_id
  let messageId := normBlank message.message_id
  match rootId with
  | none =>
    { isThreadReply := false, replyToId := none, messageThreadId := messageId }
  | some r =>
    { rootId := some r, parentId := parentId, isThreadReply := true,
      replyToId := some (parentId.getD r), messageThreadId := some r }

/-- A concrete thread-reply message used by the C4 witness. -/
def threadReplyMsgExample : FeishuMessage :=
  { message_id := some "m2", root_id := some "r", parent_id := some "p" }

/-- A concrete top-level message used by the C4 witness. -/
def topLevelMsgExample : FeishuMessage := { message_id := some "m1" }

/-! ## Chat types, dedupe and chat gate
(src/unnamed monitor context module, createFeishuMonitorContext) -/

/-- `FeishuChatType` (monitor context module, line 14). -/
inductive FeishuChatType where
  | direct
  | group
deriving Repr, DecidableEq

/-- The string form of a `FeishuChatType`, as it reaches
`normalizeFeishuChatType` when a previously-normalized type is passed back
in (`isChatAllowed` does this). -/
def chatTypeStr : FeishuChatType → String
  | .direct => "direct"
  | .group => "group"

/-- `inferFeishuChatType` (monitor context module, lines 19-25): infer from
the chat id prefix, `oc_` for groups and `ou_` for direct chats. -/
def inferFeishuChatType (chatId : Option String) : Option FeishuChatType :=
  match chatId with
  | none => none
  | some s =>
    let trimmed := jsStrTrim s
    if trimmed = "" then none
    else if jsStartsWith trimmed "oc_" then some .group
    else if jsStartsWith trimmed "ou_" then some .direct
    else none

/-- `normalizeFeishuChatType` (monitor context module, lines 30-42): map the
raw `chat_type` string, else infer from the id, else default to group. -/
def normalizeFeishuChatType (chatType : Option String) (chatId : Option String) :
    FeishuChatType :=
  match chatType with
  | some ct =>
    let normalized := jsToLower (jsStrTrim ct)
    if normalized = "p2p" ∨ normalized = "direct" ∨ normalized = "im" then .direct
    else if normalized = "group" ∨ normalized = "chat" then .group
    else (inferFeishuChatType chatId).getD .group
  | none => (inferFeishuChatType chatId).getD .group

/-- Modelled from the spec: `createDedupeCache` (src/infra/dedupe.js, which
is not under this tree; spec §4.1 / §3 DedupeKey).  The cache is a bounded,
time-expiring set of keys; `check` reports whether the key is already present
and unexpired, inserts an unseen key with expiry `now + ttlMs`, and evicts
expired entries and the oldest entries beyond `maxSize`. -/
def dedupeCheck (ttlMs maxSize : Nat) (entries : List (String × Nat))
    (now : Nat) (key : String) : Bool × List (String × Nat) :=
  let alive := entries.filter (fun e => now < e.2)
  let seen := alive.any (fun e => e.1 == key)
  let updated := if seen then alive else alive ++ [(key, now + ttlMs)]
  (seen, updated.drop (updated.length - maxSize))

/-- The dedupe retention window of the monitor context (line 129:
`createDedupeCache({ ttlMs: 60_000, maxSize: 500 })`). -/
def feishuDedupeTtlMs : Nat := 60000

/-- The dedupe capacity of the monitor context (line 129). -/
def feishuDedupeMaxSize : Nat := 500

/-- `markMessageSeen` (monitor context module, lines 134-137): an event
missing either id is never marked; otherwise the dedupe cache is checked and
updated under the key `chatId:messageId`. -/
def markMessageSeen (seen : List (String × Nat)) (now : Nat)
    (chatId : Option String) (messageId : Option String) :
    Bool × List (String × Nat) :=
  match chatId, messageId with
  | some c, some m =>
    if c = "" ∨ m = "" then (false, seen)
    else dedupeCheck feishuDedupeTtlMs feishuDedupeMaxSize seen now (c ++ ":" ++ m)
  | _, _ => (false, seen)

/-- The handler returned by `createFeishuMessageHandler`
(monitor/message-handler.ts lines 98-109), reduced to its dedupe decision:
the boolean is whether the event is passed on to the debouncer (`enqueue`),
and the second component is the dedupe state afterwards.  An event with no
message object returns before the dedupe check. -/
def feishuHandleInbound (seen : List (String × Nat)) (now : Nat)
    (message : Option FeishuMessage) : Bool × List (String × Nat) :=
  match message with
  | none => (false, seen)
  | some msg =>
    let r := markMessageSeen seen now msg.chat_id msg.message_id
    (!r.1, r.2)

/-- `GroupPolicy` (src/config/types.js, read through the monitor context). -/
inductive GroupPolicy where
  | opened
  | allowlist
  | disabled
deriving Repr, DecidableEq

/-- `DmPolicy` (src/config/types.js, read through the monitor context);
`other` stands for any further policy literal, which the DM gate treats like
an allowlist (spec §4.4.1 "any other policy value"). -/
inductive DmPolicy where
  | opened
  | pairing
  | disabled
  | other
deriving Repr, DecidableEq

/-- A per-group configuration entry (monitor context module, lines 62-72);
`users` entries are already stringified. -/
structure FeishuGroupConfig where
  enabled : Option Bool := none
  allow : Option Bool := none
  requireMention : Option Bool := none
  users : Option (List String) := none
  systemPrompt : Option String := none
deriving Repr, DecidableEq

/-- JS `groupsConfig?.[key]` on the record embedded as an association
list (keys unique). -/
def lookupGroup (cfgs : List (String × FeishuGroupConfig)) (key : String) :
    Option FeishuGroupConfig :=
  (cfgs.find? (fun e => e.1 == key)).map (fun e => e.2)

/-- The slice of the monitor context consulted by `isChatAllowed`
(monitor context module, lines 200-232); an absent `groupsConfig` record is
embedded as the empty list, which the source treats identically. -/
structure FeishuChatGate where
  dmEnabled : Bool
  groupPolicy : GroupPolicy
  groupsConfig : List (String × FeishuGroupConfig)
deriving Repr, DecidableEq

/-- `isChatAllowed` (monitor context module, lines 200-232): direct chats
require `dmEnabled`; group chats with a chat id are dropped under
`groupPolicy = disabled`, and under `allowlist` — but only when at least one
group entry is configured — require a per-chat or wildcard entry that is not
explicitly disabled. -/
def isChatAllowed (gate : FeishuChatGate) (chatId : Option String)
    (chatType : Option FeishuChatType) : Bool :=
  let ct := normalizeFeishuChatType (chatType.map chatTypeStr) chatId
  let isDirectMessage := ct = FeishuChatType.direct
  let isGroup := ct = FeishuChatType.group
  if isDirectMessage ∧ ¬gate.dmEnabled then false
  else if isGroup ∧ chatId.getD "" ≠ "" then
    let hasGroupConfig := ¬gate.groupsConfig.isEmpty
    if gate.groupPolicy = GroupPolicy.disabled then false
    else if gate.groupPolicy = GroupPolicy.allowlist ∧ hasGroupConfig then
      match (lookupGroup gate.groupsConfig (chatId.getD "")).orElse
          (fun _ => lookupGroup gate.groupsConfig "*") with
      | none => false
      | some chatConfig =>
        if chatConfig.enabled = some false ∨ chatConfig.allow = some false
        then false
        else true
    else true
  else true

/-- `isFeishuUserAllowed` (monitor context module, lines 285-301): an empty
allow list matches nobody, a wildcard everybody; otherwise the lowercased id
or display name must appear among the lowercased entries. -/
def isFeishuUserAllowed (allowList : List String) (userId : String)
    (userName : Option String) : Bool :=
  if allowList.length = 0 then false
  else if allowList.contains "*" then true
  else
    let lower := allowList.map jsToLower
    let idLower := jsToLower userId
    let nameLower := userName.map jsToLower
    lower.contains idLower ||
      (match nameLower with
       | some n => lower.contains n
       | none => false)

/-- `AccessDecision` as returned by `resolveFeishuAllowListMatch`. -/
structure AllowListMatch where
  allowed : Bool
  matchSource : Option String := none
deriving Repr, DecidableEq

/-- `resolveFeishuAllowListMatch` (monitor context module, lines 306-330):
like `isFeishuUserAllowed` but also reporting which entry matched. -/
def resolveFeishuAllowListMatch (allowList : List String) (id : String)
    (name : Option String) : AllowListMatch :=
  if allowList.length = 0 then { allowed := false }
  else if allowList.contains "*" then { allowed := true, matchSource := some "*" }
  else
    let lower := allowList.map jsToLower
    let idLower := jsToLower id
    let nameLower := name.map jsToLower
    if lower.contains idLower then
      { allowed := true, matchSource := some ("id:" ++ id) }
    else
      match nameLower with
      | some n =>
        if lower.contains n then
          { allowed := true, matchSource := some ("name:" ++ name.getD "") }
        else { allowed := false }
      | none => { allowed := false }

/-- A concrete message with both dedupe identifiers, used by the C1 witness. -/
def dedupeMsgExample : FeishuMessage :=
  { chat_id := some "oc_c", message_id := some "m" }

/-- A concrete chat gate with an allowlist policy but no configured group, the
C6 counterexample input. -/
def emptyAllowlistGate : FeishuChatGate :=
  { dmEnabled := true, groupPolicy := GroupPolicy.allowlist, groupsConfig := [] }

/-! ## Debounce flush merge (monitor/message-handler.ts, onFlush) -/

/-- One tag's contribution to a post line (extractPostText, lines 163-172 of
monitor/message-handler.ts): `text` and `a` tags contribute their non-empty
text, an `at` tag contributes `@` plus the user name, else the user id, else
nothing. -/
def postTagText (t : FeishuPostTag) : String :=
  if t.tag = "text" ∧ t.text.getD "" ≠ "" then t.text.getD ""
  else if t.tag = "a" ∧ t.text.getD "" ≠ "" then t.text.getD ""
  else if t.tag = "at" then
    "@" ++ ((t.user_name.orElse (fun _ => t.user_id)).getD "")
  else ""

/-- `extractPostText` (monitor/message-handler.ts lines 144-181): title line
when non-empty, then each paragraph's concatenated tag texts when non-empty,
joined by newline and trimmed; the `zh_cn` body is preferred over `en_us`. -/
def extractPostText (zh_cn en_us : Option FeishuPostBody) : String :=
  match zh_cn.orElse (fun _ => en_us) with
  | none => ""
  | some post =>
    let titleLines : List String :=
      match post.title with
      | some t => if t ≠ "" then [t] else []
      | none => []
    let allLines := (post.content.getD []).foldl
      (fun acc paragraph =>
        let line := paragraph.foldl (fun l tag => l ++ postTagText tag) ""
        if line ≠ "" then acc ++ [line] else acc)
      titleLines
    jsStrTrim (String.intercalate "\n" allLines)

/-- `extractMessageText` (monitor/message-handler.ts lines 115-139): the
`text` field of a text message, the extracted plain text of a post message,
and the empty string for a missing message, missing content, any other
message type, or a JSON parse failure.  A payload whose parsed shape does not
match the declared `message_type` reads as missing fields, hence `""`. -/
def extractMessageText (message : Option FeishuMessage) : String :=
  match message with
  | none => ""
  | some msg =>
    match msg.content with
    | none => ""
    | some content =>
      match msg.message_type with
      | some "text" =>
        match content with
        | FeishuContent.textContent t => t.getD ""
        | _ => ""
      | some "post" =>
        match content with
        | FeishuContent.postContent zh en => extractPostText zh en
        | _ => ""
      | _ => ""

/-- The sender identifiers of an event (`event.sender?.sender_id`,
collapsed by one optional level). -/
structure FeishuSenderId where
  open_id : Option String := none
  user_id : Option String := none
deriving Repr, DecidableEq

/-- A Feishu message event as the monitor handles it (`event.event`,
collapsed by the constant wrapper level). -/
structure FeishuMessageEvent where
  message : Option FeishuMessage := none
  sender : Option FeishuSenderId := none
deriving Repr, DecidableEq

/-- One queued debouncer entry: the event plus its `opts.wasMentioned`. -/
structure FlushEntry where
  event : FeishuMessageEvent
  wasMentioned : Option Bool := none
deriving Repr, DecidableEq

/-- The outcome of the pure merge step of `onFlush`
(monitor/message-handler.ts lines 41-92), before `prepareFeishuMessage` is
invoked: the combined text, the merged `wasMentioned` option
(`combinedMentioned || last.opts.wasMentioned`), the synthetic event (the
last event with its message content replaced by the combined text), and the
id bookkeeping `(MessageSids, MessageSidFirst, MessageSidLast)` attached when
more than one event merged and at least one id is present. -/
structure MergedFlush where
  combinedText : String
  wasMentionedOpt : Option Bool
  syntheticEvent : FeishuMessageEvent
  messageIds : Option (List String × String × String)
deriving Repr, DecidableEq

/-- The merge performed by `onFlush` (monitor/message-handler.ts lines
41-92); `none` for an empty bucket (`if (!last) return`). -/
def mergeFlushEntries (entries : List FlushEntry) : Option MergedFlush :=
  match entries.getLast? with
  | none => none
  | some last =>
    let combinedText :=
      if entries.length = 1 then extractMessageText last.event.message
      else
        String.intercalate "\n"
          ((entries.map (fun e => extractMessageText e.event.message)).filter
            (fun t => t ≠ ""))
    let combinedMentioned := entries.any (fun e => e.wasMentioned.getD false)
    let syntheticEvent : FeishuMessageEvent :=
      { last.event with
        message := some
          { (last.event.message.getD {}) with
            content := some (FeishuContent.textContent (some combinedText)) } }
    let ids := (entries.filterMap
        (fun e => e.event.message.bind (fun m => m.message_id))).filter
      (fun i => i ≠ "")
    let messageIds :=
      if 1 < entries.length then
        match ids.head?, ids.getLast? with
        | some hd, some lst => some (ids, hd, lst)
        | _, _ => none
      else none
    some
      { combinedText := combinedText,
        wasMentionedOpt :=
          if combinedMentioned then some true else last.wasMentioned,
        syntheticEvent := syntheticEvent,
        messageIds := messageIds }

/-- A concrete text-message flush entry (extracted text `"a"`), for the C5
counterexample. -/
def flushEntryText : FlushEntry :=
  { event :=
      { message := some
          { message_id := some "m1", chat_id := some "oc_x",
            message_type := some "text",
            content := some (FeishuContent.textContent (some "a")) },
        sender := some { open_id := some "u1" } },
    wasMentioned := some false }

/-- A concrete image-message flush entry (extracted text `""`), for the C5
counterexample. -/
def flushEntryImage : FlushEntry :=
  { event :=
      { message := some
          { message_id := some "m2", chat_id := some "oc_x",
            message_type := some "image",
            content := some FeishuContent.otherContent },
        sender := some { open_id := some "u1" } },
    wasMentioned := some false }

/-! ## Message preparation (monitor/message-handler/prepare.ts)

`prepareFeishuMessage` is embedded with its control flow and gate wiring
intact; collaborators that live in the clawdbot core outside this tree
are modelled from the spec below, and external side-effect-only calls with
no bearing on any claim (`enqueueSystemEvent`, envelope formatting,
`recordInboundSession`, verbose logging) are omitted: none of them changes
the returned value, the pending history, the pairing store, or the set of
pairing replies sent. -/

/-- A pending-history entry (src/auto-reply/reply/history.js shape, as
constructed by prepare.ts lines 278-285). -/
structure HistoryEntry where
  sender : String
  body : String
  timestamp : Option Nat := none
  messageId : Option String := none
deriving Repr, DecidableEq

/-- JS object-as-map read `m[k]`. -/
def assocGet {α : Type} (m : List (String × α)) (k : String) : Option α :=
  (m.find? (fun e => e.1 == k)).map (fun e => e.2)

/-- JS object-as-map write `m[k] = v`. -/
def assocSet {α : Type} (m : List (String × α)) (k : String) (v : α) :
    List (String × α) :=
  if m.any (fun e => e.1 == k) then
    m.map (fun e => if e.1 == k then (k, v) else e)
  else m ++ [(k, v)]

/-- Modelled from the spec: `recordPendingHistoryEntryIfEnabled`
(src/auto-reply/reply/history.js, not in this tree).  Spec §4.4.5/§3: the
pending per-conversation history is bounded, "capacity N entries, oldest
evicted first"; recording is a no-op when there is no entry or the limit is
zero (history disabled). -/
def recordPendingHistoryEntry (histories : List (String × List HistoryEntry))
    (key : String) (limit : Nat) (entry : Option HistoryEntry) :
    List (String × List HistoryEntry) :=
  match entry with
  | none => histories
  | some e =>
    if limit = 0 then histories
    else
      let old := (assocGet histories key).getD []
      let updated := (old ++ [e]).drop ((old.length + 1) - limit)
      assocSet histories key updated

/-- Modelled from the spec: `upsertChannelPairingRequest`
(src/pairing/pairing-store.js, not in this tree).  Spec §3 PairingRequest:
"created idempotently (one per externalId)"; §6: returns `{code, created}`.
The store maps the external id to its code; `code` is the fresh code to use
when a new request is created. -/
def upsertChannelPairingRequest (store : List (String × String))
    (id code : String) : (String × Bool) × List (String × String) :=
  match assocGet store id with
  | some existing => ((existing, false), store)
  | none => ((code, true), store ++ [(id, code)])

/-- Modelled from the spec: `buildPairingReply`
(src/pairing/pairing-messages.js, not in this tree).  The reply text carries
the id line and the one-time code; its exact wording is irrelevant to every
claim. -/
def buildPairingReply (idLine code : String) : String :=
  "Pairing required.\n" ++ idLine ++ "\nPairing code: " ++ code

/-- An agent route (src/routing/resolve-route.js result shape). -/
structure AgentRoute where
  agentId : String
  accountId : String
  sessionKey : String
  mainSessionKey : String
deriving Repr, DecidableEq

/-- Modelled from the spec: `resolveAgentRoute` (src/routing/resolve-route.js,
not in this tree).  Spec §3 SessionKey: a deterministic, side-effect-free
function of the routing scope, the conversation kind and the peer id. -/
def resolveAgentRoute (mainKey accountId peerKind peerId : String) : AgentRoute :=
  { agentId := "main", accountId := accountId,
    sessionKey := mainKey ++ ":" ++ peerKind ++ ":" ++ peerId,
    mainSessionKey := mainKey }

/-- The session keys derived for a thread (src/routing/session-key.js result
shape). -/
structure ThreadSessionKeys where
  sessionKey : String
  parentSessionKey : Option String
deriving Repr, DecidableEq

/-- Modelled from the spec: `resolveThreadSessionKeys`
(src/routing/session-key.js, not in this tree).  Spec §3/§4.3: the session
key is deterministic in the base key and the optional thread id, and differs
from the base key exactly when a thread id is present. -/
def resolveThreadSessionKeys (baseSessionKey : String)
    (threadId : Option String) : ThreadSessionKeys :=
  match threadId with
  | none => { sessionKey := baseSessionKey, parentSessionKey := none }
  | some t =>
    { sessionKey := baseSessionKey ++ ":thread:" ++ t,
      parentSessionKey := some baseSessionKey }

/-- Does `pat` occur as a substring of `s`? (used for the spec-modelled
text-pattern mention fallback). -/
def strContainsSub (s pat : String) : Bool :=
  (List.range (s.toList.length + 1)).any
    (fun i => pat.toList.isPrefixOf (s.toList.drop i))

/-- Modelled from the spec: `hasControlCommand`
(src/auto-reply/command-detection.js, not in this tree).  Spec §4.2/glossary:
a recognized control command is detected in the extracted text; modelled as
the trimmed text starting with one of the configured command literals. -/
def hasControlCommand (text : String) (commands : List String) : Bool :=
  commands.any (fun cmd => jsStartsWith (jsStrTrim text) cmd)

/-- Modelled from the spec: `matchesMentionWithExplicit`
(src/auto-reply/reply/mentions.js, not in this tree).  Spec §4.4.5: the
mention is "detected either by matching the bot's own platform identifier
among the message's structured mentions (explicit, high-confidence) or by a
configurable set of text patterns (fallback, used when explicit detection is
unavailable)". -/
def matchesMentionWithExplicit (text : String) (mentionRegexes : List String)
    (hasAnyMention isExplicitlyMentioned canResolveExplicit : Bool) : Bool :=
  if canResolveExplicit then isExplicitlyMentioned
  else mentionRegexes.any (fun pat => strContainsSub text pat)

/-- One command authorizer handed to the command gate (prepare.ts lines
233-236). -/
structure CommandAuthorizer where
  configured : Bool
  allowed : Bool
deriving Repr, DecidableEq

/-- The command gate verdict (src/channels/command-gating.js result shape). -/
structure CommandGate where
  commandAuthorized : Bool
  shouldBlock : Bool
deriving Repr, DecidableEq

/-- Modelled from the spec: `resolveControlCommandGate`
(src/channels/command-gating.js, not in this tree).  Spec §4.4.4: a command
is authorized iff some configured authorizer allows the sender ("if neither
source is configured, a command is not authorized by default"), and an
unauthorized recognized control command, with command handling enabled, must
be blocked. -/
def resolveControlCommandGate (authorizers : List CommandAuthorizer)
    (allowTextCommands hasCmd : Bool) : CommandGate :=
  let authorized := authorizers.any (fun a => a.configured && a.allowed)
  { commandAuthorized := authorized,
    shouldBlock := allowTextCommands && hasCmd && !authorized }

/-- The mention gate verdict (src/channels/mention-gating.js result shape). -/
structure MentionGate where
  effectiveWasMentioned : Bool
  shouldSkip : Bool
deriving Repr, DecidableEq

/-- Modelled from the spec: `resolveMentionGatingWithBypass`
(src/channels/mention-gating.js, not in this tree).  Spec §4.4.5: a group
turn under a mention requirement is allowed only if the bot was mentioned,
except that "an authorized control command always bypasses the mention
requirement".  (`canDetectMention` and `hasAnyMention` feed the detection
already folded into `wasMentioned`; the spec states no further rule for
them.) -/
def resolveMentionGatingWithBypass (isGroup requireMention canDetectMention
    wasMentioned hasAnyMention allowTextCommands hasCmd
    commandAuthorized : Bool) : MentionGate :=
  let bypass := allowTextCommands && hasCmd && commandAuthorized
  let effective := wasMentioned || bypass
  { effectiveWasMentioned := effective,
    shouldSkip := isGroup && requireMention && !effective }

/-- The slice of the monitor context and configuration that
`prepareFeishuMessage` reads.  `userNames`/`chatNames` stand for the
cache-backed `resolveUserName`/`resolveChatInfo` collaborators (a failed or
empty lookup is `none`); `mentionRegexes`, `allowTextCommands`,
`controlCommands` stand for `buildMentionRegexes`, `shouldHandleTextCommands`
and the configured control commands; `freshPairingCode` stands for the code
generation inside the pairing store. -/
structure FeishuMonitorCtx where
  botOpenId : Option String := none
  historyLimit : Nat
  mainKey : String
  accountId : String
  dmEnabled : Bool
  dmPolicy : DmPolicy
  allowFrom : List String
  defaultRequireMention : Bool
  groupsConfig : List (String × FeishuGroupConfig)
  groupPolicy : GroupPolicy
  userNames : String → Option String
  chatNames : String → Option String
  mentionRegexes : List String
  allowTextCommands : Bool
  controlCommands : List String
  freshPairingCode : String → String

/-- The mutable stores `prepareFeishuMessage` touches: the per-conversation
pending histories (`ctx.chatHistories`) and the pairing store. -/
structure PrepareState where
  chatHistories : List (String × List HistoryEntry)
  pairingRequests : List (String × String)
deriving Repr, DecidableEq

/-- `PreparedFeishuMessage` (monitor/message-handler/types.ts), restricted to
the fields the claims observe. -/
structure PreparedFeishuMessage where
  replyTarget : String
  historyKey : String
  sessionKey : String
  rawBody : String
  commandAuthorized : Bool
  wasMentioned : Option Bool
  replyToId : Option String
  messageThreadId : Option String
  groupConfig : Option FeishuGroupConfig
deriving Repr, DecidableEq

/-- The outcome of one `prepareFeishuMessage` call: the prepared message (or
`none` for a dropped turn), the stores afterwards, and the chat ids that were
sent a pairing reply during the call. -/
structure PrepareResult where
  prepared : Option PreparedFeishuMessage
  state : PrepareState
  pairingRepliesSent : List String
deriving Repr, DecidableEq

/-- The later part of `prepareFeishuMessage` (prepare.ts lines 140-432),
from route resolution on, split out of the entry function for readability:
thread/session keys and history key (lines 151-161), sender name (lines
163-165), the per-group user gate (lines 167-179), text extraction (lines
181-186), mention detection (lines 188-207), the command gate (lines
209-250), the mention gate with its pending-history recording (lines
252-288), and the prepared payload (lines 290-432). -/
def prepareFeishuMessageRouted (ctx : FeishuMonitorCtx) (st : PrepareState)
    (message : FeishuMessage) (sender : FeishuSenderId)
    (chatId senderId : String) (resolvedChatType : FeishuChatType)
    (groupConfig : Option FeishuGroupConfig)
    (optsWasMentioned : Option Bool) : PrepareResult :=
  let isDirectMessage : Bool := decide (resolvedChatType = FeishuChatType.direct)
  let isGroup : Bool := decide (resolvedChatType = FeishuChatType.group)
  let route := resolveAgentRoute ctx.mainKey ctx.accountId
    (if isDirectMessage then "dm" else "channel")
    (if isDirectMessage then senderId else chatId)
  let threadContext := resolveFeishuThreadContext message
  let rootId := threadContext.rootId
  let isThreadReply := threadContext.isThreadReply
  let threadKeys := resolveThreadSessionKeys route.sessionKey
    (if isThreadReply then rootId else none)
  let sessionKey := threadKeys.sessionKey
  let historyKey := if isThreadReply then sessionKey else chatId
  let senderName :=
    ((ctx.userNames senderId).orElse (fun _ => sender.user_id)).getD senderId
  let groupUsers := (groupConfig.bind (fun g => g.users)).getD []
  let groupUserAuthorized : Bool :=
    if isGroup then
      isFeishuUserAllowed groupUsers senderId (some senderName) ||
        decide (groupUsers.length = 0)
    else true
  if isGroup ∧ groupUserAuthorized = false then
    { prepared := none, state := st, pairingRepliesSent := [] }
  else
    let rawBody := extractMessageText (some message)
    if jsStrTrim rawBody = "" then
      { prepared := none, state := st, pairingRepliesSent := [] }
    else
      let mentions := message.mentions.getD []
      let botIdPresent : Bool := decide (ctx.botOpenId.getD "" ≠ "")
      let explicitlyMentioned : Bool :=
        botIdPresent && mentions.any (fun mid => mid == some (ctx.botOpenId.getD ""))
      let hasAnyMention : Bool := decide (0 < mentions.length)
      let wasMentioned : Bool := optsWasMentioned.getD
        (!isDirectMessage && matchesMentionWithExplicit rawBody
          ctx.mentionRegexes hasAnyMention explicitlyMentioned botIdPresent)
      let hasCmd := hasControlCommand rawBody ctx.controlCommands
      let ownerAuthorized :=
        (resolveFeishuAllowListMatch ctx.allowFrom senderId (some senderName)).allowed
      let groupUsersAllowlistConfigured : Bool :=
        isGroup && decide (0 < groupUsers.length)
      let groupCommandAuthorized : Bool :=
        if isGroup && groupUsersAllowlistConfigured then
          isFeishuUserAllowed groupUsers senderId (some senderName)
        else false
      let commandGate := resolveControlCommandGate
        [{ configured := decide (0 < ctx.allowFrom.length),
           allowed := ownerAuthorized },
         { configured := groupUsersAllowlistConfigured,
           allowed := groupCommandAuthorized }]
        ctx.allowTextCommands hasCmd
      if isGroup ∧ commandGate.shouldBlock = true then
        { prepared := none, state := st, pairingRepliesSent := [] }
      else
        let shouldRequireMention : Bool :=
          if isGroup then
            (groupConfig.bind (fun g => g.requireMention)).getD
              ctx.defaultRequireMention
          else false
        let canDetectMention : Bool :=
          botIdPresent || decide (0 < ctx.mentionRegexes.length)
        let mentionGate := resolveMentionGatingWithBypass isGroup
          shouldRequireMention canDetectMention wasMentioned hasAnyMention
          ctx.allowTextCommands hasCmd commandGate.commandAuthorized
        if isGroup ∧ shouldRequireMention = true ∧ mentionGate.shouldSkip = true then
          let entry :=
            if rawBody ≠ "" then
              some { sender := senderName, body := rawBody,
                     timestamp := message.create_time,
                     messageId := message.message_id }
            else none
          let newHistories := recordPendingHistoryEntry st.chatHistories
            historyKey ctx.historyLimit entry
          { prepared := none,
            state := { st with chatHistories := newHistories },
            pairingRepliesSent := [] }
        else
          { prepared := some
              { replyTarget :=
                  if isDirectMessage then "user:" ++ senderId
                  else "chat:" ++ chatId,
                historyKey := historyKey, sessionKey := sessionKey,
                rawBody := rawBody,
                commandAuthorized := commandGate.commandAuthorized,
                wasMentioned :=
                  if isGroup then some mentionGate.effectiveWasMentioned
                  else none,
                replyToId := threadContext.replyToId,
                messageThreadId := rootId,
                groupConfig := groupConfig },
            state := st, pairingRepliesSent := [] }

/-- `prepareFeishuMessage` (prepare.ts lines 43-432), up to and including the
DM authorization gate (lines 52-138): presence checks, chat-type resolution,
the `isChatAllowed` gate, the per-group config lookup, and the DM policy gate
with idempotent pairing; the rest is `prepareFeishuMessageRouted`. -/
def prepareFeishuMessage (ctx : FeishuMonitorCtx) (st : PrepareState)
    (ev : FeishuMessageEvent) (optsWasMentioned : Option Bool) : PrepareResult :=
  match ev.message, ev.sender with
  | some message, some sender =>
    let chatId := message.chat_id.getD ""
    let senderId := sender.open_id.getD ""
    if chatId = "" ∨ senderId = "" then
      { prepared := none, state := st, pairingRepliesSent := [] }
    else
      let resolvedChatType := normalizeFeishuChatType message.chat_type (some chatId)
      if isChatAllowed
          { dmEnabled := ctx.dmEnabled, groupPolicy := ctx.groupPolicy,
            groupsConfig := ctx.groupsConfig }
          (some chatId) (some resolvedChatType) = false then
        { prepared := none, state := st, pairingRepliesSent := [] }
      else
        let groupConfig :=
          if resolvedChatType = FeishuChatType.group then
            (lookupGroup ctx.groupsConfig chatId).orElse
              (fun _ => lookupGroup ctx.groupsConfig "*")
          else none
        if resolvedChatType = FeishuChatType.direct ∧
            (ctx.dmEnabled = false ∨ ctx.dmPolicy = DmPolicy.disabled) then
          { prepared := none, state := st, pairingRepliesSent := [] }
        else if resolvedChatType = FeishuChatType.direct ∧
            ctx.dmPolicy ≠ DmPolicy.opened ∧
            (resolveFeishuAllowListMatch ctx.allowFrom senderId none).allowed
              = false then
          if ctx.dmPolicy = DmPolicy.pairing then
            let upsert := upsertChannelPairingRequest st.pairingRequests
              senderId (ctx.freshPairingCode senderId)
            { prepared := none,
              state := { st with pairingRequests := upsert.2 },
              pairingRepliesSent := if upsert.1.2 then [chatId] else [] }
          else { prepared := none, state := st, pairingRepliesSent := [] }
        else
          prepareFeishuMessageRouted ctx st message sender chatId senderId
            resolvedChatType groupConfig optsWasMentioned
  | _, _ => { prepared := none, state := st, pairingRepliesSent := [] }

/-- A concrete monitor context for the C9 witness: pairing DM policy, with
only `alice` on the DM allowlist. -/
def pairingCtxExample : FeishuMonitorCtx :=
  { botOpenId := some "bot", historyLimit := 5, mainKey := "main",
    accountId := "acc", dmEnabled := true, dmPolicy := DmPolicy.pairing,
    allowFrom := ["alice"], defaultRequireMention := true,
    groupsConfig := [], groupPolicy := GroupPolicy.opened,
    userNames := fun _ => none, chatNames := fun _ => none,
    mentionRegexes := [], allowTextCommands := true,
    controlCommands := ["/cmd"], freshPairingCode := fun i => "code-" ++ i }

/-- A concrete direct message from the unlisted sender `bob`, for the C9
witness. -/
def pairingMsgExample : FeishuMessage :=
  { message_id := some "m1", chat_id := some "ou_x", chat_type := some "p2p",
    message_type := some "text",
    content := some (FeishuContent.textContent (some "hello")) }

/-- The sender id record of `bob`, for the C9 witness. -/
def pairingSenderExample : FeishuSenderId := { open_id := some "bob" }

/-- The empty prepare state (no histories, no pairing requests). -/
def emptyPrepareState : PrepareState :=
  { chatHistories := [], pairingRequests := [] }

/-- The pending-history entry that the mention gate records for a skipped
group turn (prepare.ts lines 278-285): resolved sender name, raw body,
timestamp and message id. -/
def pendingEntryOf (ctx : FeishuMonitorCtx) (sender : FeishuSenderId)
    (u : String) (message : FeishuMessage) : HistoryEntry :=
  { sender := ((ctx.userNames u).orElse (fun _ => sender.user_id)).getD u,
    body := extractMessageText (some message),
    timestamp := message.create_time,
    messageId := message.message_id }

/-- A dropped turn: `prepareFeishuMessage` returned `null` with the given
stores and no outbound sends. -/
def droppedTurn (st : PrepareState) : PrepareResult :=
  { prepared := none, state := st, pairingRepliesSent := [] }

/-- A prepare state with its pending histories replaced. -/
def withHistories (st : PrepareState)
    (histories : List (String × List HistoryEntry)) : PrepareState :=
  { st with chatHistories := histories }

/-- The history key `prepareFeishuMessage` resolves for a group message
(prepare.ts line 161): the thread session key for a thread reply, the bare
chat id otherwise. -/
def feishuGroupHistoryKey (ctx : FeishuMonitorCtx) (message : FeishuMessage)
    (c : String) : String :=
  let threadContext := resolveFeishuThreadContext message
  if threadContext.isThreadReply then
    (resolveThreadSessionKeys
      (resolveAgentRoute ctx.mainKey ctx.accountId "channel" c).sessionKey
      (if threadContext.isThreadReply then threadContext.rootId else none)).sessionKey
  else c

/-- A concrete group text message (no mention, no command), for the C7
witness. -/
def groupMsgExample : FeishuMessage :=
  { message_id := some "m2", chat_id := some "oc_g",
    chat_type := some "group", message_type := some "text",
    content := some (FeishuContent.textContent (some "hi there")) }

/-- A concrete group control-command message (`/cmd go`), for the C8
witness. -/
def groupCmdMsgExample : FeishuMessage :=
  { message_id := some "m3", chat_id := some "oc_g",
    chat_type := some "group", message_type := some "text",
    content := some (FeishuContent.textContent (some "/cmd go")) }

/-- The sender id record of the allowlisted `alice`, for the C7/C8
witnesses. -/
def senderAliceExample : FeishuSenderId := { open_id := some "alice" }

/-! ### Lemmas about the chunker -/

theorem jsLastIndexOfAux_le (s sub : List Char) :
    ∀ i j, jsLastIndexOfAux s sub i = some j → j ≤ i := by
  intro i
  induction i with
  | zero =>
    intro j h
    by_cases hp : sub.isPrefixOf s <;> simp [jsLastIndexOfAux, hp] at h
    omega
  | succ n ih =>
    intro j h
    by_cases hp : sub.isPrefixOf (s.drop (n + 1))
    · simp [jsLastIndexOfAux, hp] at h
      omega
    · simp [jsLastIndexOfAux, hp] at h
      exact Nat.le_trans (ih j h) (Nat.le_succ n)

theorem acceptBreak_le (m : Nat) (s sub : List Char) (j : Nat)
    (h : acceptBreak m (jsLastIndexOf s sub m) = some j) : j ≤ m := by
  cases ho : jsLastIndexOf s sub m with
  | none => simp [acceptBreak, ho] at h
  | some k =>
    have hk := jsLastIndexOfAux_le s sub m k ho
    by_cases hq : m < 2 * k <;> simp [acceptBreak, ho, hq] at h
    omega

theorem acceptBreak_pos (m : Nat) (o : Option Nat) (j : Nat)
    (h : acceptBreak m o = some j) : m < 2 * j := by
  cases o with
  | none => simp [acceptBreak] at h
  | some k =>
    by_cases hq : m < 2 * k <;> simp [acceptBreak, hq] at h
    omega

theorem findBreakPoint_le (r : List Char) (m : Nat) : findBreakPoint r m ≤ m := by
  unfold findBreakPoint
  cases h1 : acceptBreak m (jsLastIndexOf r ['\n', '\n'] m) with
  | some j => exact acceptBreak_le m r _ j h1
  | none =>
    cases h2 : acceptBreak m (jsLastIndexOf r ['\n'] m) with
    | some j => exact acceptBreak_le m r _ j h2
    | none =>
      cases h3 : acceptBreak m (jsLastIndexOf r [' '] m) with
      | some j => exact acceptBreak_le m r _ j h3
      | none => exact Nat.le_refl m

theorem one_le_findBreakPoint (r : List Char) (m : Nat) (hm : 1 ≤ m) :
    1 ≤ findBreakPoint r m := by
  unfold findBreakPoint
  cases h1 : acceptBreak m (jsLastIndexOf r ['\n', '\n'] m) with
  | some j => show 1 ≤ j; have := acceptBreak_pos m _ j h1; omega
  | none =>
    cases h2 : acceptBreak m (jsLastIndexOf r ['\n'] m) with
    | some j => show 1 ≤ j; have := acceptBreak_pos m _ j h2; omega
    | none =>
      cases h3 : acceptBreak m (jsLastIndexOf r [' '] m) with
      | some j => show 1 ≤ j; have := acceptBreak_pos m _ j h3; omega
      | none => exact hm

theorem length_dropWhile_le' (p : Char → Bool) (l : List Char) :
    (l.dropWhile p).length ≤ l.length := by
  induction l with
  | nil => simp [List.dropWhile]
  | cons c t ih =>
    by_cases hp : p c <;> simp [List.dropWhile, hp]
    omega

theorem jsTrim_length_le (s : List Char) : (jsTrim s).length ≤ s.length := by
  unfold jsTrim
  calc ((s.dropWhile isJsWhitespace).reverse.dropWhile isJsWhitespace).reverse.length
      = ((s.dropWhile isJsWhitespace).reverse.dropWhile isJsWhitespace).length := by
        simp
    _ ≤ (s.dropWhile isJsWhitespace).reverse.length := length_dropWhile_le' _ _
    _ = (s.dropWhile isJsWhitespace).length := by simp
    _ ≤ s.length := length_dropWhile_le' _ _

theorem nonWsContent_dropWhile (s : List Char) :
    nonWsContent (s.dropWhile isJsWhitespace) = nonWsContent s := by
  induction s with
  | nil => rfl
  | cons c t ih =>
    by_cases hw : isJsWhitespace c
    · simp [List.dropWhile, hw, nonWsContent, List.filter] at ih ⊢
      exact ih
    · simp [List.dropWhile, hw]

theorem nonWsContent_reverse (s : List Char) :
    nonWsContent s.reverse = (nonWsContent s).reverse := by
  simp [nonWsContent, List.filter_reverse]

theorem nonWsContent_jsTrim (s : List Char) :
    nonWsContent (jsTrim s) = nonWsContent s := by
  unfold jsTrim
  rw [nonWsContent_reverse, nonWsContent_dropWhile, nonWsContent_reverse,
    List.reverse_reverse, nonWsContent_dropWhile]

theorem chunkLoop_nil (m fuel : Nat) : chunkLoop m fuel [] = [] := by
  cases fuel <;> rfl

/-- Termination of the chunking loop, phrased over the fuel embedding: for a
positive limit, any fuel of at least the remainder's length computes the same
result, because every iteration removes at least one character. -/
theorem chunkLoop_fuel_irrelevant (m : Nat) (hm : 1 ≤ m) :
    ∀ f1 f2 r, r.length ≤ f1 → r.length ≤ f2 →
      chunkLoop m f1 r = chunkLoop m f2 r := by
  intro f1
  induction f1 with
  | zero =>
    intro f2 r h1 _
    have : r = [] := List.eq_nil_of_length_eq_zero (Nat.le_zero.mp h1)
    subst this
    rw [chunkLoop_nil, chunkLoop_nil]
  | succ g ih =>
    intro f2 r h1 h2
    cases r with
    | nil => rw [chunkLoop_nil, chunkLoop_nil]
    | cons c t =>
      have hlen : 1 ≤ (c :: t).length := by simp
      cases f2 with
      | zero => omega
      | succ g2 =>
        show chunkLoop m (g + 1) (c :: t) = chunkLoop m (g2 + 1) (c :: t)
        by_cases hfit : (c :: t).length ≤ m
        · rw [List.length_cons] at hfit
          simp [chunkLoop, hfit]
        · have hbp1 : 1 ≤ findBreakPoint (c :: t) m := one_le_findBreakPoint _ m hm
          have hdrop : (jsTrim ((c :: t).drop (findBreakPoint (c :: t) m))).length
              ≤ (c :: t).length - 1 := by
            have h3 := jsTrim_length_le ((c :: t).drop (findBreakPoint (c :: t) m))
            have h4 : ((c :: t).drop (findBreakPoint (c :: t) m)).length
                = (c :: t).length - findBreakPoint (c :: t) m := by
              simp [List.length_drop]
            omega
          have key := ih g2 (jsTrim ((c :: t).drop (findBreakPoint (c :: t) m)))
            (by omega) (by omega)
          rw [List.length_cons] at hfit
          simp only [chunkLoop, List.length_cons]
          rw [if_neg hfit, if_neg hfit, key]

theorem chunkLoop_chunk_le (m : Nat) :
    ∀ fuel r c, c ∈ chunkLoop m fuel r → c.length ≤ m := by
  intro fuel
  induction fuel with
  | zero =>
    intro r c hc
    cases r with
    | nil => rw [chunkLoop_nil] at hc; cases hc
    | cons a t => cases hc
  | succ g ih =>
    intro r c hc
    cases r with
    | nil => rw [chunkLoop_nil] at hc; cases hc
    | cons a t =>
      by_cases hfit : (a :: t).length ≤ m
      · rw [List.length_cons] at hfit
        simp only [chunkLoop, List.length_cons, if_pos hfit, List.mem_singleton] at hc
        subst hc
        simpa using hfit
      · rw [List.length_cons] at hfit
        simp only [chunkLoop, List.length_cons, if_neg hfit, List.mem_cons] at hc
        rcases hc with hc | hc
        · subst hc
          have h1 := jsTrim_length_le ((a :: t).take (findBreakPoint (a :: t) m))
          have h2 : ((a :: t).take (findBreakPoint (a :: t) m)).length
              ≤ findBreakPoint (a :: t) m := by
            simp [List.length_take]
          have h3 := findBreakPoint_le (a :: t) m
          omega
        · exact ih _ c hc

theorem chunkLoop_join_content (m : Nat) (hm : 1 ≤ m) :
    ∀ fuel r, r.length ≤ fuel →
      nonWsContent (chunkLoop m fuel r).flatten = nonWsContent r := by
  intro fuel
  induction fuel with
  | zero =>
    intro r hr
    have : r = [] := List.eq_nil_of_length_eq_zero (Nat.le_zero.mp hr)
    subst this
    rw [chunkLoop_nil]
    rfl
  | succ g ih =>
    intro r hr
    cases r with
    | nil => rw [chunkLoop_nil]; rfl
    | cons a t =>
      by_cases hfit : (a :: t).length ≤ m
      · rw [List.length_cons] at hfit
        simp [chunkLoop, hfit]
      · have hbp1 : 1 ≤ findBreakPoint (a :: t) m := one_le_findBreakPoint _ m hm
        have hdrop : (jsTrim ((a :: t).drop (findBreakPoint (a :: t) m))).length
            ≤ (a :: t).length - 1 := by
          have h3 := jsTrim_length_le ((a :: t).drop (findBreakPoint (a :: t) m))
          have h4 : ((a :: t).drop (findBreakPoint (a :: t) m)).length
              = (a :: t).length - findBreakPoint (a :: t) m := by
            simp [List.length_drop]
          omega
        have key := ih (jsTrim ((a :: t).drop (findBreakPoint (a :: t) m))) (by
          simp only [List.length_cons] at hdrop hr ⊢
          omega)
        rw [List.length_cons] at hfit
        simp only [chunkLoop, List.length_cons, if_neg hfit, List.flatten_cons]
        rw [show nonWsContent (jsTrim (List.take (findBreakPoint (a :: t) m) (a :: t)) ++
              (chunkLoop m g (jsTrim (List.drop (findBreakPoint (a :: t) m) (a :: t)))).flatten)
            = nonWsContent (jsTrim (List.take (findBreakPoint (a :: t) m) (a :: t))) ++
              nonWsContent ((chunkLoop m g (jsTrim (List.drop (findBreakPoint (a :: t) m)
                (a :: t)))).flatten) from List.filter_append _ _]
        rw [key, nonWsContent_jsTrim, nonWsContent_jsTrim]
        rw [show nonWsContent (List.take (findBreakPoint (a :: t) m) (a :: t)) ++
              nonWsContent (List.drop (findBreakPoint (a :: t) m) (a :: t))
            = nonWsContent (List.take (findBreakPoint (a :: t) m) (a :: t) ++
              List.drop (findBreakPoint (a :: t) m) (a :: t)) from
          (List.filter_append _ _).symm]
        rw [List.take_append_drop]

theorem findBreakPoint_eq_spec (r : List Char) (m : Nat) :
    findBreakPoint r m = specBreakPoint r m := by
  unfold findBreakPoint specBreakPoint
  cases h1 : acceptBreak m (jsLastIndexOf r ['\n', '\n'] m) <;>
    cases h2 : acceptBreak m (jsLastIndexOf r ['\n'] m) <;>
      cases h3 : acceptBreak m (jsLastIndexOf r [' '] m) <;>
        simp [h1, h2, h3, List.filterMap_cons]

theorem chunkLoop_eq_specLoop (m : Nat) :
    ∀ fuel r, chunkLoop m fuel r = chunkSpecLoop m fuel r := by
  intro fuel
  induction fuel with
  | zero => intro r; cases r <;> rfl
  | succ g ih =>
    intro r
    cases r with
    | nil => rfl
    | cons a t =>
      show chunkLoop m (g + 1) (a :: t) = chunkSpecLoop m (g + 1) (a :: t)
      by_cases hfit : (a :: t).length ≤ m
      · rw [List.length_cons] at hfit
        simp [chunkLoop, chunkSpecLoop, hfit]
      · rw [List.length_cons] at hfit
        simp only [chunkLoop, chunkSpecLoop, List.length_cons, if_neg hfit]
        rw [findBreakPoint_eq_spec, ih]

/-! ### Claim theorems for the chunker -/

/-- C2: for every text `t` and limit `m`, `chunkFeishuText t m` returns `[t]`
when `t` fits in `m`, and otherwise repeatedly chooses a break point by trying,
in order, the last paragraph break at or before `m`, then the last newline,
then the last space, accepting a candidate only beyond `m * 0.5`, breaking
exactly at `m` when none qualifies, emitting the trimmed prefix and continuing
on the trimmed suffix — i.e. it coincides with the spec-side algorithm
`chunkSpec` on every input. -/
theorem chunkFeishuText_refines_spec (t : List Char) (m : Nat) :
    chunkFeishuText t m = chunkSpec t m := by
  unfold chunkFeishuText chunkSpec
  by_cases hfit : t.length ≤ m
  · rw [if_pos hfit, if_pos hfit]
  · rw [if_neg hfit, if_neg hfit, chunkLoop_eq_specLoop]

/-- C3: for a positive limit, concatenating the chunks of `chunkFeishuText`
loses no non-whitespace character and duplicates none: the non-whitespace
content of the joined chunks is exactly the non-whitespace content of the
input, in order.  (For `m = 0` the source loop does not terminate on inputs
such as `"ab"`, so the claim only speaks of terminating runs.) -/
theorem chunk_join_lossless (t : List Char) (m : Nat) (hm : 1 ≤ m) :
    nonWsContent (chunkFeishuText t m).flatten = nonWsContent t := by
  unfold chunkFeishuText
  by_cases hfit : t.length ≤ m
  · rw [if_pos hfit]
    simp
  · rw [if_neg hfit]
    exact chunkLoop_join_content m hm t.length t (Nat.le_refl _)

/-- C3 witness: the lossless-join theorem applied at the concrete text
`"a b cd"` with limit 3. -/
theorem chunk_join_lossless_witness :
    (1 : Nat) ≤ 3 ∧
      nonWsContent (chunkFeishuText ['a', ' ', 'b', ' ', 'c', 'd'] 3).flatten
        = nonWsContent ['a', ' ', 'b', ' ', 'c', 'd'] :=
  ⟨by decide, chunk_join_lossless ['a', ' ', 'b', ' ', 'c', 'd'] 3 (by decide)⟩

/-- C10: for a positive limit the chunking loop terminates — any fuel of at
least the text's length computes the same list, because every iteration
strictly shortens the remainder — and every returned chunk has length at most
the limit.  Positivity is necessary: with `m = 0` the chosen break point can
be `0` and the remainder never shrinks. -/
theorem chunkFeishuText_terminates_bounded (t : List Char) (m : Nat) (hm : 1 ≤ m) :
    (∀ fuel, t.length ≤ fuel → chunkLoop m fuel t = chunkLoop m t.length t) ∧
      (∀ c ∈ chunkFeishuText t m, c.length ≤ m) := by
  constructor
  · intro fuel hf
    exact chunkLoop_fuel_irrelevant m hm fuel t.length t hf (Nat.le_refl _)
  · intro c hc
    unfold chunkFeishuText at hc
    by_cases hfit : t.length ≤ m
    · rw [if_pos hfit, List.mem_singleton] at hc
      subst hc
      exact hfit
    · rw [if_neg hfit] at hc
      exact chunkLoop_chunk_le m t.length t c hc

/-- C10 witness: the termination-and-bound theorem applied at the concrete
text `"abc"` with limit 2 (which chunks as `["ab", "c"]`). -/
theorem chunkFeishuText_terminates_bounded_witness :
    (1 : Nat) ≤ 2 ∧
      ((∀ fuel, (['a', 'b', 'c'] : List Char).length ≤ fuel →
          chunkLoop 2 fuel ['a', 'b', 'c'] = chunkLoop 2 3 ['a', 'b', 'c']) ∧
        (∀ c ∈ chunkFeishuText ['a', 'b', 'c'] 2, c.length ≤ 2)) :=
  ⟨by decide, chunkFeishuText_terminates_bounded ['a', 'b', 'c'] 2 (by decide)⟩

/-! ### Claim theorem for threading -/

/-- C4: `isThreadReply` holds iff a non-blank `root_id` is present; with no
root the reply target is undefined and the thread id is the message's own
(trimmed) id; with a root the reply target is the non-blank trimmed
`parent_id` when present and otherwise the root, and the thread id is the
root. -/
theorem resolveThreadContext_correct (m : FeishuMessage) :
    (resolveFeishuThreadContext m).isThreadReply = (normBlank m.root_id).isSome ∧
    (normBlank m.root_id = none →
      (resolveFeishuThreadContext m).replyToId = none ∧
      (resolveFeishuThreadContext m).messageThreadId = normBlank m.message_id) ∧
    (∀ r, normBlank m.root_id = some r →
      (resolveFeishuThreadContext m).replyToId
          = some ((normBlank m.parent_id).getD r) ∧
      (resolveFeishuThreadContext m).messageThreadId = some r) := by
  unfold resolveFeishuThreadContext
  cases hroot : normBlank m.root_id with
  | none =>
    refine ⟨rfl, fun _ => ⟨rfl, rfl⟩, fun r hr => ?_⟩
    cases hr
  | some r =>
    refine ⟨rfl, fun h => ?_, fun r' hr' => ?_⟩
    · cases h
    · cases hr'
      exact ⟨rfl, rfl⟩

/-- C4 witness: the threading theorem applied to a concrete reply carrying
`root_id = "r"` and `parent_id = "p"`, and to a concrete top-level message
with `message_id = "m1"`. -/
theorem resolveThreadContext_correct_witness :
    ((resolveFeishuThreadContext threadReplyMsgExample).replyToId = some "p" ∧
      (resolveFeishuThreadContext threadReplyMsgExample).messageThreadId
        = some "r") ∧
    ((resolveFeishuThreadContext topLevelMsgExample).replyToId = none ∧
      (resolveFeishuThreadContext topLevelMsgExample).messageThreadId
        = some "m1") := by
  constructor
  · have h := (resolveThreadContext_correct threadReplyMsgExample).2.2 "r" (by decide)
    simpa using h
  · have h := (resolveThreadContext_correct topLevelMsgExample).2.1 (by decide)
    simpa using h

/-! ### Claim theorems for dedupe and the chat gate -/

theorem drop_append_last_mem (l : List (String × Nat)) (x : String × Nat)
    (k : Nat) (hk : k ≤ l.length) : x ∈ (l ++ [x]).drop k := by
  rw [List.drop_append_of_le_length hk]
  exact List.mem_append_right _ (List.mem_singleton_self x)

theorem dedupeCheck_mem_after (t m : Nat) (hm : 1 ≤ m)
    (entries : List (String × Nat)) (now : Nat) (key : String)
    (h : (dedupeCheck t m entries now key).1 = false) :
    (key, now + t) ∈ (dedupeCheck t m entries now key).2 := by
  have h1 : (dedupeCheck t m entries now key).1
      = (entries.filter (fun e => decide (now < e.2))).any (fun e => e.1 == key) :=
    rfl
  rw [h1] at h
  show (key, now + t) ∈
    (let alive := entries.filter (fun e => decide (now < e.2))
     let seen := alive.any (fun e => e.1 == key)
     let updated := if seen then alive else alive ++ [(key, now + t)]
     updated.drop (updated.length - m))
  simp only [h, if_false, Bool.false_eq_true]
  apply drop_append_last_mem
  simp
  omega

theorem dedupeCheck_seen_of_mem (t m : Nat) (entries : List (String × Nat))
    (now : Nat) (key : String) (exp : Nat)
    (hmem : (key, exp) ∈ entries) (hexp : now < exp) :
    (dedupeCheck t m entries now key).1 = true := by
  have h1 : (dedupeCheck t m entries now key).1
      = (entries.filter (fun e => decide (now < e.2))).any (fun e => e.1 == key) :=
    rfl
  rw [h1, List.any_eq_true]
  refine ⟨(key, exp), ?_, by simp⟩
  rw [List.mem_filter]
  exact ⟨hmem, by simpa using hexp⟩

/-- C1: an event whose `(chat_id, message_id)` pair was already delivered is
dropped (not enqueued) when redelivered within the retention window, and an
event missing either identifier is always treated as unseen and passed
through with the dedupe state unchanged. -/
theorem feishu_dedupe_at_most_once
    (seen : List (String × Nat)) (now1 now2 : Nat) (msg msg2 : FeishuMessage)
    (c mid : String)
    (hc1 : msg.chat_id = some c) (hm1 : msg.message_id = some mid)
    (hc2 : msg2.chat_id = some c) (hm2 : msg2.message_id = some mid)
    (hcne : c ≠ "") (hmne : mid ≠ "")
    (hfirst : (feishuHandleInbound seen now1 (some msg)).1 = true)
    (hwin : now2 < now1 + feishuDedupeTtlMs) :
    (feishuHandleInbound (feishuHandleInbound seen now1 (some msg)).2 now2
        (some msg2)).1 = false ∧
    (∀ (s : List (String × Nat)) (t : Nat) (m3 : FeishuMessage),
      m3.chat_id = none ∨ m3.chat_id = some "" ∨ m3.message_id = none ∨
        m3.message_id = some "" →
      feishuHandleInbound s t (some m3) = (true, s)) := by
  have hne : ¬(c = "" ∨ mid = "") := by
    intro hor
    rcases hor with h | h
    · exact hcne h
    · exact hmne h
  constructor
  · have hstep1 : feishuHandleInbound seen now1 (some msg)
        = (!(dedupeCheck feishuDedupeTtlMs feishuDedupeMaxSize seen now1
              (c ++ ":" ++ mid)).1,
           (dedupeCheck feishuDedupeTtlMs feishuDedupeMaxSize seen now1
              (c ++ ":" ++ mid)).2) := by
      simp only [feishuHandleInbound, hc1, hm1, markMessageSeen]
      rw [if_neg hne]
    have hstep2 : ∀ s2, feishuHandleInbound s2 now2 (some msg2)
        = (!(dedupeCheck feishuDedupeTtlMs feishuDedupeMaxSize s2 now2
              (c ++ ":" ++ mid)).1,
           (dedupeCheck feishuDedupeTtlMs feishuDedupeMaxSize s2 now2
              (c ++ ":" ++ mid)).2) := by
      intro s2
      simp only [feishuHandleInbound, hc2, hm2, markMessageSeen]
      rw [if_neg hne]
    rw [hstep1] at hfirst
    have hfresh : (dedupeCheck feishuDedupeTtlMs feishuDedupeMaxSize seen now1
        (c ++ ":" ++ mid)).1 = false := by
      simpa using hfirst
    have hmem := dedupeCheck_mem_after feishuDedupeTtlMs feishuDedupeMaxSize
      (by decide) seen now1 (c ++ ":" ++ mid) hfresh
    have hseen2 := dedupeCheck_seen_of_mem feishuDedupeTtlMs feishuDedupeMaxSize
      ((dedupeCheck feishuDedupeTtlMs feishuDedupeMaxSize seen now1
        (c ++ ":" ++ mid)).2) now2 (c ++ ":" ++ mid)
      (now1 + feishuDedupeTtlMs) hmem hwin
    rw [hstep1, hstep2]
    simp [hseen2]
  · intro s t m3 h
    cases hcid : m3.chat_id with
    | none =>
      cases hmid : m3.message_id <;>
        simp [feishuHandleInbound, markMessageSeen, hcid, hmid]
    | some cv =>
      cases hmid : m3.message_id with
      | none => simp [feishuHandleInbound, markMessageSeen, hcid, hmid]
      | some mv =>
        have hor : cv = "" ∨ mv = "" := by
          rcases h with h | h | h | h
          · rw [hcid] at h; cases h
          · rw [hcid] at h; exact Or.inl (Option.some.inj h)
          · rw [hmid] at h; cases h
          · rw [hmid] at h; exact Or.inr (Option.some.inj h)
        simp only [feishuHandleInbound, markMessageSeen, hcid, hmid]
        rw [if_pos hor]
        simp

/-- C1 witness: the dedupe theorem applied to a concrete event with
`chat_id = "oc_c"`, `message_id = "m"`: delivered fresh at time 0, then
dropped at time 1. -/
theorem feishu_dedupe_at_most_once_witness :
    (feishuHandleInbound [] 0 (some dedupeMsgExample)).1 = true ∧
    ((feishuHandleInbound (feishuHandleInbound [] 0 (some dedupeMsgExample)).2 1
        (some dedupeMsgExample)).1 = false ∧
      (∀ (s : List (String × Nat)) (t : Nat) (m3 : FeishuMessage),
        m3.chat_id = none ∨ m3.chat_id = some "" ∨ m3.message_id = none ∨
          m3.message_id = some "" →
        feishuHandleInbound s t (some m3) = (true, s))) :=
  ⟨by decide,
    feishu_dedupe_at_most_once [] 0 1 dedupeMsgExample dedupeMsgExample
      "oc_c" "m" rfl rfl rfl rfl (by decide) (by decide) (by decide) (by decide)⟩

/-- C6 counterexample: under `groupPolicy = allowlist` with an empty groups
configuration, the group chat `oc_team` is allowed even though neither a
per-chat entry nor a wildcard entry exists, refuting "a group with no
configured entry while an allowlist is in force is not allowed unless a
wildcard entry exists". -/
theorem isChatAllowed_allowlist_counterexample :
    isChatAllowed emptyAllowlistGate (some "oc_team") (some FeishuChatType.group)
        = true ∧
    lookupGroup emptyAllowlistGate.groupsConfig "oc_team" = none ∧
    lookupGroup emptyAllowlistGate.groupsConfig "*" = none := by
  decide

theorem normalize_group_str (cid : Option String) :
    normalizeFeishuChatType (some (chatTypeStr FeishuChatType.group)) cid
      = FeishuChatType.group := by
  have h : jsToLower (jsStrTrim (chatTypeStr FeishuChatType.group)) = "group" := by
    decide
  simp only [normalizeFeishuChatType]
  rw [h, if_neg (by decide), if_pos (by decide)]

/-- C6 as amended: for a group chat with a non-empty id, `disabled` drops it
and `opened` allows it; `allowlist` requires a per-chat or wildcard entry not
explicitly disabled only when at least one group entry is configured — with
an empty or absent groups configuration every group is allowed even under
`allowlist`. -/
theorem isChatAllowed_group_policy (gate : FeishuChatGate) (c : String)
    (hc : c ≠ "") :
    (gate.groupPolicy = GroupPolicy.disabled →
      isChatAllowed gate (some c) (some FeishuChatType.group) = false) ∧
    (gate.groupPolicy = GroupPolicy.opened →
      isChatAllowed gate (some c) (some FeishuChatType.group) = true) ∧
    (gate.groupPolicy = GroupPolicy.allowlist → gate.groupsConfig = [] →
      isChatAllowed gate (some c) (some FeishuChatType.group) = true) ∧
    (gate.groupPolicy = GroupPolicy.allowlist → gate.groupsConfig ≠ [] →
      (isChatAllowed gate (some c) (some FeishuChatType.group) = true ↔
        ∃ cc, ((lookupGroup gate.groupsConfig c).orElse
            (fun _ => lookupGroup gate.groupsConfig "*")) = some cc ∧
          cc.enabled ≠ some false ∧ cc.allow ≠ some false)) := by
  have hred : isChatAllowed gate (some c) (some FeishuChatType.group)
      = (if gate.groupPolicy = GroupPolicy.disabled then false
         else if gate.groupPolicy = GroupPolicy.allowlist ∧
             ¬gate.groupsConfig.isEmpty = true then
           match (lookupGroup gate.groupsConfig c).orElse
               (fun _ => lookupGroup gate.groupsConfig "*") with
           | none => false
           | some cc =>
             if cc.enabled = some false ∨ cc.allow = some false then false
             else true
         else true) := by
    simp only [isChatAllowed, Option.map_some', normalize_group_str,
      Option.getD_some]
    rw [if_neg ?hd, if_pos (⟨trivial, hc⟩ : True ∧ c ≠ "")]
    case hd =>
      rintro ⟨h, -⟩
      cases h
  refine ⟨?_, ?_, ?_, ?_⟩
  · intro hpol
    rw [hred, if_pos hpol]
  · intro hpol
    rw [hred, if_neg (by simp [hpol]), if_neg (by simp [hpol])]
  · intro hpol hcfg
    rw [hred, if_neg (by simp [hpol]), if_neg (by simp [hcfg])]
  · intro hpol hcfg
    rw [hred, if_neg (by simp [hpol]),
      if_pos ⟨hpol, by simp [List.isEmpty_iff, hcfg]⟩]
    cases hlk : (lookupGroup gate.groupsConfig c).orElse
        (fun _ => lookupGroup gate.groupsConfig "*") with
    | none => simp
    | some cc =>
      show (if cc.enabled = some false ∨ cc.allow = some false then false
        else true) = true ↔ _
      by_cases hdis : cc.enabled = some false ∨ cc.allow = some false
      · rw [if_pos hdis]
        constructor
        · intro h
          exact Bool.noConfusion h
        · rintro ⟨cc', hcc', hen, hal⟩
          have hecc := Option.some.inj hcc'
          subst hecc
          rcases hdis with h | h
          · exact absurd h hen
          · exact absurd h hal
      · rw [if_neg hdis]
        push_neg at hdis
        exact ⟨fun _ => ⟨cc, rfl, hdis.1, hdis.2⟩, fun _ => rfl⟩

/-- C6 amended-claim witness: the characterization applied at the concrete
gate with an empty allowlist configuration and the group chat `oc_team`. -/
theorem isChatAllowed_group_policy_witness :
    ("oc_team" : String) ≠ "" ∧
      (emptyAllowlistGate.groupPolicy = GroupPolicy.allowlist →
        emptyAllowlistGate.groupsConfig = [] →
        isChatAllowed emptyAllowlistGate (some "oc_team")
          (some FeishuChatType.group) = true) :=
  ⟨by decide, (isChatAllowed_group_policy emptyAllowlistGate "oc_team"
    (by decide)).2.2.1⟩

/-! ### Claim theorems for the flush merge -/

/-- C5 counterexample: a flushed bucket holding a text event (extracted text
`"a"`) and an image event (extracted text `""`) merges to the body `"a"`,
not to the newline-join `"a\n"` of each member's extracted text — empty
extractions are filtered out before joining, so the claimed equality fails. -/
theorem mergeFlush_counterexample :
    (mergeFlushEntries [flushEntryText, flushEntryImage]).map
        (fun f => f.combinedText) = some "a" ∧
    String.intercalate "\n"
        ([flushEntryText, flushEntryImage].map
          (fun e => extractMessageText e.event.message)) = "a\n" ∧
    ("a" : String) ≠ "a\n" := by
  refine ⟨?_, by decide, by decide⟩
  rfl

/-- C5 as amended: for every non-empty flushed bucket, the merged body is the
newline-join of the members' non-empty extracted texts (a single-item bucket
passes its original extracted text through), the merged `wasMentioned` is
`some true` whenever any member was mentioned (otherwise the last member's
option is passed through), the present (non-empty) member message ids are
retained as (all, first, last) when more than one event merged, and the
synthetic event carries the last event's sender and message metadata with
only the content replaced by the combined text. -/
theorem mergeFlushEntries_correct (entries : List FlushEntry)
    (last : FlushEntry) (hlast : entries.getLast? = some last) :
    ∃ f, mergeFlushEntries entries = some f ∧
      (entries.length = 1 →
        f.combinedText = extractMessageText last.event.message) ∧
      (1 < entries.length →
        f.combinedText = String.intercalate "\n"
          ((entries.map (fun e => extractMessageText e.event.message)).filter
            (fun t => t ≠ ""))) ∧
      f.wasMentionedOpt
          = (if entries.any (fun e => e.wasMentioned.getD false) then some true
             else last.wasMentioned) ∧
      (entries.any (fun e => e.wasMentioned.getD false) = true →
        f.wasMentionedOpt = some true) ∧
      f.syntheticEvent.sender = last.event.sender ∧
      f.syntheticEvent.message.map (fun m => m.root_id)
          = some (last.event.message.getD {}).root_id ∧
      f.syntheticEvent.message.map (fun m => m.parent_id)
          = some (last.event.message.getD {}).parent_id ∧
      f.syntheticEvent.message.map (fun m => m.chat_id)
          = some (last.event.message.getD {}).chat_id ∧
      f.syntheticEvent.message.map (fun m => m.content)
          = some (some (FeishuContent.textContent (some f.combinedText))) ∧
      (1 < entries.length → ∀ ids hd lst,
        ids = (entries.filterMap
            (fun e => e.event.message.bind (fun m => m.message_id))).filter
          (fun i => i ≠ "") →
        ids.head? = some hd → ids.getLast? = some lst →
        f.messageIds = some (ids, hd, lst)) := by
  unfold mergeFlushEntries
  rw [hlast]
  refine ⟨_, rfl, ?_, ?_, rfl, ?_, rfl, rfl, rfl, rfl, rfl, ?_⟩
  · intro h
    show (if entries.length = 1 then extractMessageText last.event.message
      else String.intercalate "\n"
        ((entries.map (fun e => extractMessageText e.event.message)).filter
          (fun t => t ≠ ""))) = extractMessageText last.event.message
    rw [if_pos h]
  · intro h
    show (if entries.length = 1 then extractMessageText last.event.message
      else String.intercalate "\n"
        ((entries.map (fun e => extractMessageText e.event.message)).filter
          (fun t => t ≠ ""))) = String.intercalate "\n"
        ((entries.map (fun e => extractMessageText e.event.message)).filter
          (fun t => t ≠ ""))
    rw [if_neg (by omega)]
  · intro h
    show (if entries.any (fun e => e.wasMentioned.getD false) then some true
      else last.wasMentioned) = some true
    rw [if_pos h]
  · intro hlen ids hd lst hids hhd hlst
    subst hids
    show (if 1 < entries.length then
        match ((entries.filterMap
            (fun e => e.event.message.bind (fun m => m.message_id))).filter
          (fun i => i ≠ "")).head?, ((entries.filterMap
            (fun e => e.event.message.bind (fun m => m.message_id))).filter
          (fun i => i ≠ "")).getLast? with
        | some hd, some lst => some (((entries.filterMap
            (fun e => e.event.message.bind (fun m => m.message_id))).filter
          (fun i => i ≠ "")), hd, lst)
        | _, _ => none
      else none) = some (((entries.filterMap
            (fun e => e.event.message.bind (fun m => m.message_id))).filter
          (fun i => i ≠ "")), hd, lst)
    rw [if_pos hlen, hhd, hlst]

/-- C5 amended-claim witness: the merge characterization applied to the
concrete two-event bucket of the counterexample, whose merged body is `"a"`
with ids `["m1", "m2"]`. -/
theorem mergeFlushEntries_correct_witness :
    [flushEntryText, flushEntryImage].getLast? = some flushEntryImage ∧
    ∃ f, mergeFlushEntries [flushEntryText, flushEntryImage] = some f ∧
      (1 < ([flushEntryText, flushEntryImage] : List FlushEntry).length →
        f.combinedText = String.intercalate "\n"
          (([flushEntryText, flushEntryImage].map
            (fun e => extractMessageText e.event.message)).filter
            (fun t => t ≠ ""))) := by
  refine ⟨by decide, ?_⟩
  obtain ⟨f, hf, -, h2, -⟩ :=
    mergeFlushEntries_correct [flushEntryText, flushEntryImage]
      flushEntryImage (by decide)
  exact ⟨f, hf, h2⟩

/-! ### Claim theorems for the DM pairing gate -/

theorem normalize_direct_str (cid : Option String) :
    normalizeFeishuChatType (some (chatTypeStr FeishuChatType.direct)) cid
      = FeishuChatType.direct := by
  have h : jsToLower (jsStrTrim (chatTypeStr FeishuChatType.direct))
      = "direct" := by decide
  simp only [normalizeFeishuChatType]
  rw [h, if_pos (by decide)]

theorem isChatAllowed_direct_enabled (gate : FeishuChatGate) (c : String)
    (hdm : gate.dmEnabled = true) :
    isChatAllowed gate (some c) (some FeishuChatType.direct) = true := by
  simp only [isChatAllowed, Option.map_some', normalize_direct_str,
    Option.getD_some]
  rw [if_neg (by simp [hdm]), if_neg (by rintro ⟨h, -⟩; cases h)]

theorem assocGet_append_of_none {α : Type} (m : List (String × α))
    (k : String) (v : α) (h : assocGet m k = none) :
    assocGet (m ++ [(k, v)]) k = some v := by
  unfold assocGet at h ⊢
  rw [List.find?_append]
  have hfind : m.find? (fun e => e.1 == k) = none := by
    cases hf : m.find? (fun e => e.1 == k) with
    | none => rfl
    | some e => rw [hf] at h; simp at h
  rw [hfind]
  simp [List.find?]

/-- The DM gate of `prepareFeishuMessage`, evaluated on the pairing path: a
direct message whose sender misses the allowlist, under `dmPolicy = pairing`,
is dropped after the idempotent pairing upsert, with a pairing reply sent
exactly when the upsert created the request. -/
theorem prepare_dm_pairing_branch (ctx : FeishuMonitorCtx) (st : PrepareState)
    (message : FeishuMessage) (sender : FeishuSenderId) (c u : String)
    (wm : Option Bool)
    (hc : message.chat_id = some c) (hcne : c ≠ "")
    (hu : sender.open_id = some u) (hune : u ≠ "")
    (hct : normalizeFeishuChatType message.chat_type (some c)
      = FeishuChatType.direct)
    (hdm : ctx.dmEnabled = true)
    (hpol : ctx.dmPolicy = DmPolicy.pairing)
    (hmatch : (resolveFeishuAllowListMatch ctx.allowFrom u none).allowed = false) :
    prepareFeishuMessage ctx st { message := some message, sender := some sender } wm
      = { prepared := none,
          state := { st with pairingRequests :=
            (upsertChannelPairingRequest st.pairingRequests u
              (ctx.freshPairingCode u)).2 },
          pairingRepliesSent :=
            if (upsertChannelPairingRequest st.pairingRequests u
              (ctx.freshPairingCode u)).1.2 then [c] else [] } := by
  have hne : ¬(c = "" ∨ u = "") := by
    rintro (h | h)
    · exact hcne h
    · exact hune h
  have hchat : isChatAllowed
      { dmEnabled := ctx.dmEnabled, groupPolicy := ctx.groupPolicy,
        groupsConfig := ctx.groupsConfig } (some c)
      (some FeishuChatType.direct) = true :=
    isChatAllowed_direct_enabled _ c hdm
  simp only [prepareFeishuMessage, hc, hu, Option.getD_some]
  rw [if_neg hne, hct]
  rw [if_neg (show ¬(isChatAllowed
      { dmEnabled := ctx.dmEnabled, groupPolicy := ctx.groupPolicy,
        groupsConfig := ctx.groupsConfig } (some c)
      (some FeishuChatType.direct) = false) from by simp [hchat])]
  rw [if_neg (show ¬(FeishuChatType.direct = FeishuChatType.group) from
    by decide)]
  rw [if_neg (show ¬(FeishuChatType.direct = FeishuChatType.direct ∧
      (ctx.dmEnabled = false ∨ ctx.dmPolicy = DmPolicy.disabled)) from by
    rintro ⟨-, h | h⟩ <;> simp_all)]
  rw [if_pos (show FeishuChatType.direct = FeishuChatType.direct ∧
      ctx.dmPolicy ≠ DmPolicy.opened ∧
      (resolveFeishuAllowListMatch ctx.allowFrom u none).allowed = false from
    ⟨rfl, by simp [hpol], hmatch⟩)]
  rw [if_pos hpol]

/-- C9: under `dmPolicy = pairing`, a direct message from a sender missing
the allowlist is dropped, and a pairing reply is sent exactly when the
pairing upsert reports the request as newly created: the first unmatched
contact sends exactly one pairing reply (to the sender's chat) and records
the request; a second unmatched message in the same unapproved state sends
no further pairing reply and leaves the store unchanged. -/
theorem dm_pairing_reply_idempotent (ctx : FeishuMonitorCtx)
    (st : PrepareState) (message : FeishuMessage) (sender : FeishuSenderId)
    (c u : String) (wm : Option Bool)
    (hc : message.chat_id = some c) (hcne : c ≠ "")
    (hu : sender.open_id = some u) (hune : u ≠ "")
    (hct : normalizeFeishuChatType message.chat_type (some c)
      = FeishuChatType.direct)
    (hdm : ctx.dmEnabled = true)
    (hpol : ctx.dmPolicy = DmPolicy.pairing)
    (hmatch : (resolveFeishuAllowListMatch ctx.allowFrom u none).allowed = false)
    (hnew : assocGet st.pairingRequests u = none) :
    prepareFeishuMessage ctx st { message := some message, sender := some sender } wm
      = { prepared := none,
          state := { st with pairingRequests :=
            st.pairingRequests ++ [(u, ctx.freshPairingCode u)] },
          pairingRepliesSent := [c] } ∧
    prepareFeishuMessage ctx
        { st with pairingRequests :=
          st.pairingRequests ++ [(u, ctx.freshPairingCode u)] }
        { message := some message, sender := some sender } wm
      = { prepared := none,
          state := { st with pairingRequests :=
            st.pairingRequests ++ [(u, ctx.freshPairingCode u)] },
          pairingRepliesSent := [] } := by
  have hup1 : upsertChannelPairingRequest st.pairingRequests u
      (ctx.freshPairingCode u)
      = ((ctx.freshPairingCode u, true),
         st.pairingRequests ++ [(u, ctx.freshPairingCode u)]) := by
    unfold upsertChannelPairingRequest
    rw [hnew]
  have hup2 : upsertChannelPairingRequest
      (st.pairingRequests ++ [(u, ctx.freshPairingCode u)]) u
      (ctx.freshPairingCode u)
      = ((ctx.freshPairingCode u, false),
         st.pairingRequests ++ [(u, ctx.freshPairingCode u)]) := by
    unfold upsertChannelPairingRequest
    rw [assocGet_append_of_none st.pairingRequests u (ctx.freshPairingCode u) hnew]
  constructor
  · rw [prepare_dm_pairing_branch ctx st message sender c u wm hc hcne hu hune
      hct hdm hpol hmatch, hup1]
    rfl
  · rw [prepare_dm_pairing_branch ctx _ message sender c u wm hc hcne hu hune
      hct hdm hpol hmatch, hup2]
    rfl

/-- C9 witness: the pairing idempotence theorem applied to the concrete
unlisted sender `bob` messaging the bot directly: exactly one pairing reply
on first contact, none on the second. -/
theorem dm_pairing_reply_idempotent_witness :
    pairingCtxExample.dmPolicy = DmPolicy.pairing ∧
    (prepareFeishuMessage pairingCtxExample emptyPrepareState
        { message := some pairingMsgExample, sender := some pairingSenderExample }
        none
      = { prepared := none,
          state := { emptyPrepareState with pairingRequests :=
            emptyPrepareState.pairingRequests ++
              [("bob", pairingCtxExample.freshPairingCode "bob")] },
          pairingRepliesSent := ["ou_x"] } ∧
    prepareFeishuMessage pairingCtxExample
        { emptyPrepareState with pairingRequests :=
          emptyPrepareState.pairingRequests ++
            [("bob", pairingCtxExample.freshPairingCode "bob")] }
        { message := some pairingMsgExample, sender := some pairingSenderExample }
        none
      = { prepared := none,
          state := { emptyPrepareState with pairingRequests :=
            emptyPrepareState.pairingRequests ++
              [("bob", pairingCtxExample.freshPairingCode "bob")] },
          pairingRepliesSent := [] }) :=
  ⟨rfl,
    dm_pairing_reply_idempotent pairingCtxExample emptyPrepareState
      pairingMsgExample pairingSenderExample "ou_x" "bob" none
      rfl (by decide) rfl (by decide) (by decide) rfl rfl (by decide) rfl⟩

/-! ### Claim theorems for the group gates (C7, C8) -/

theorem prepare_routes_group (ctx : FeishuMonitorCtx) (st : PrepareState)
    (message : FeishuMessage) (sender : FeishuSenderId) (c u : String)
    (wm : Option Bool) (gc : Option FeishuGroupConfig)
    (hc : message.chat_id = some c) (hcne : c ≠ "")
    (hu : sender.open_id = some u) (hune : u ≠ "")
    (hct : normalizeFeishuChatType message.chat_type (some c)
      = FeishuChatType.group)
    (hallowed : isChatAllowed
      { dmEnabled := ctx.dmEnabled, groupPolicy := ctx.groupPolicy,
        groupsConfig := ctx.groupsConfig } (some c)
      (some FeishuChatType.group) = true)
    (hgc : (lookupGroup ctx.groupsConfig c).orElse
      (fun _ => lookupGroup ctx.groupsConfig "*") = gc) :
    prepareFeishuMessage ctx st { message := some message, sender := some sender } wm
      = prepareFeishuMessageRouted ctx st message sender c u
          FeishuChatType.group gc wm := by
  have hne : ¬(c = "" ∨ u = "") := by
    rintro (h | h)
    · exact hcne h
    · exact hune h
  simp only [prepareFeishuMessage, hc, hu, Option.getD_some]
  rw [if_neg hne, hct]
  rw [if_neg (show ¬(isChatAllowed
      { dmEnabled := ctx.dmEnabled, groupPolicy := ctx.groupPolicy,
        groupsConfig := ctx.groupsConfig } (some c)
      (some FeishuChatType.group) = false) from by simp [hallowed])]
  rw [if_pos (show FeishuChatType.group = FeishuChatType.group from rfl), hgc]
  rw [if_neg (show ¬(FeishuChatType.group = FeishuChatType.direct ∧
      (ctx.dmEnabled = false ∨ ctx.dmPolicy = DmPolicy.disabled)) from by
    rintro ⟨h, -⟩; cases h)]
  rw [if_neg (show ¬(FeishuChatType.group = FeishuChatType.direct ∧
      ctx.dmPolicy ≠ DmPolicy.opened ∧
      (resolveFeishuAllowListMatch ctx.allowFrom u none).allowed = false) from by
    rintro ⟨h, -⟩; cases h)]

theorem routed_group_mention_skip (ctx : FeishuMonitorCtx) (st : PrepareState)
    (message : FeishuMessage) (sender : FeishuSenderId) (c u : String)
    (gc : Option FeishuGroupConfig)
    (husers : (gc.bind (fun g => g.users)).getD [] = [])
    (hrbne : jsStrTrim (extractMessageText (some message)) ≠ "")
    (hreq : (gc.bind (fun g => g.requireMention)).getD
      ctx.defaultRequireMention = true)
    (hnocmd : (ctx.allowTextCommands &&
      hasControlCommand (extractMessageText (some message))
        ctx.controlCommands) = false) :
    prepareFeishuMessageRouted ctx st message sender c u
        FeishuChatType.group gc (some false)
      = droppedTurn (withHistories st
          (recordPendingHistoryEntry st.chatHistories
            (feishuGroupHistoryKey ctx message c) ctx.historyLimit
            (some (pendingEntryOf ctx sender u message)))) := by
  have hrbne' : extractMessageText (some message) ≠ "" := by
    intro h
    rw [h] at hrbne
    exact hrbne (by decide)
  simp only [prepareFeishuMessageRouted, husers, hreq]
  split_ifs with h1 h2 h3 h4 h5 <;> simp_all [isFeishuUserAllowed,
    resolveMentionGatingWithBypass, resolveControlCommandGate, hnocmd,
    pendingEntryOf, droppedTurn, withHistories, feishuGroupHistoryKey]

theorem routed_group_command_blocked (ctx : FeishuMonitorCtx)
    (st : PrepareState) (message : FeishuMessage) (sender : FeishuSenderId)
    (c u : String) (wm : Option Bool) (gc : Option FeishuGroupConfig)
    (users : List String) (sn : String)
    (husers : (gc.bind (fun g => g.users)).getD [] = users)
    (hsn : ((ctx.userNames u).orElse (fun _ => sender.user_id)).getD u = sn)
    (hga : (isFeishuUserAllowed users u (some sn) ||
      decide (users.length = 0)) = true)
    (hrbne : jsStrTrim (extractMessageText (some message)) ≠ "")
    (htext : ctx.allowTextCommands = true)
    (hcmd : hasControlCommand (extractMessageText (some message))
      ctx.controlCommands = true)
    (hnoauth : ((decide (0 < ctx.allowFrom.length) &&
        (resolveFeishuAllowListMatch ctx.allowFrom u (some sn)).allowed) ||
      (decide (0 < users.length) && isFeishuUserAllowed users u (some sn)))
        = false) :
    prepareFeishuMessageRouted ctx st message sender c u
        FeishuChatType.group gc wm
      = droppedTurn st := by
  simp only [prepareFeishuMessageRouted, husers, hsn, htext, hcmd]
  rw [if_neg ?c1, if_neg ?c2, if_pos ?c3]
  case c1 =>
    rintro ⟨-, h⟩
    rw [if_pos (by rfl)] at h
    rw [hga] at h
    exact Bool.noConfusion h
  case c2 => exact hrbne
  case c3 =>
    refine ⟨by rfl, ?_⟩
    cases hud : decide (0 < users.length) with
    | false =>
      simp_all [resolveControlCommandGate]
      rcases Nat.eq_zero_or_pos ctx.allowFrom.length with h | h
      · exact Or.inl (List.eq_nil_of_length_eq_zero h)
      · exact Or.inr (hnoauth h)
    | true => simp_all [resolveControlCommandGate]
  rfl

theorem routed_group_command_authorized (ctx : FeishuMonitorCtx)
    (st : PrepareState) (message : FeishuMessage) (sender : FeishuSenderId)
    (c u : String) (wm : Option Bool) (gc : Option FeishuGroupConfig)
    (users : List String) (sn : String)
    (husers : (gc.bind (fun g => g.users)).getD [] = users)
    (hsn : ((ctx.userNames u).orElse (fun _ => sender.user_id)).getD u = sn)
    (hga : (isFeishuUserAllowed users u (some sn) ||
      decide (users.length = 0)) = true)
    (hrbne : jsStrTrim (extractMessageText (some message)) ≠ "")
    (htext : ctx.allowTextCommands = true)
    (hcmd : hasControlCommand (extractMessageText (some message))
      ctx.controlCommands = true)
    (hauth : ((decide (0 < ctx.allowFrom.length) &&
        (resolveFeishuAllowListMatch ctx.allowFrom u (some sn)).allowed) ||
      (decide (0 < users.length) && isFeishuUserAllowed users u (some sn)))
        = true) :
    ∃ p, prepareFeishuMessageRouted ctx st message sender c u
        FeishuChatType.group gc wm
      = { prepared := some p, state := st, pairingRepliesSent := [] } ∧
      p.commandAuthorized = true := by
  simp only [prepareFeishuMessageRouted, husers, hsn, htext, hcmd]
  rw [if_neg ?c1, if_neg ?c2, if_neg ?c3, if_neg ?c4]
  case c1 =>
    rintro ⟨-, h⟩
    rw [if_pos (by rfl)] at h
    rw [hga] at h
    exact Bool.noConfusion h
  case c2 => exact hrbne
  case c3 =>
    rintro ⟨-, h⟩
    revert h
    cases hud : decide (0 < users.length) <;>
      simp_all [resolveControlCommandGate] <;>
      all_goals
        (intros
         rcases hga with h | h
         · exact h
         · subst h
           simp at hud)
  case c4 =>
    rintro ⟨-, -, h⟩
    revert h
    cases hud : decide (0 < users.length) <;>
      simp_all [resolveControlCommandGate, resolveMentionGatingWithBypass] <;>
      all_goals
        (intros
         rcases hga with h | h
         · exact h
         · subst h
           simp at hud)
  refine ⟨_, rfl, ?_⟩
  cases hud : decide (0 < users.length) <;>
    simp_all [resolveControlCommandGate] <;>
    all_goals
      (intros
       rcases hga with h | h
       · exact h
       · subst h
         simp at hud)

theorem assocGet_map_update {α : Type} (m : List (String × α)) (k : String)
    (v : α) :
    assocGet (m.map (fun e => if e.1 == k then (k, v) else e)) k
      = if m.any (fun e => e.1 == k) then some v else none := by
  induction m with
  | nil => rfl
  | cons a t ih =>
    by_cases ha : a.1 == k
    · simp [assocGet, List.find?, ha]
    · simp only [List.map_cons, List.any_cons]
      rw [if_neg ha]
      unfold assocGet at ih ⊢
      rw [show List.find? (fun e => e.1 == k)
          (a :: t.map (fun e => if e.1 == k then (k, v) else e))
        = List.find? (fun e => e.1 == k)
          (t.map (fun e => if e.1 == k then (k, v) else e)) from by
        simp [List.find?, ha]]
      rw [ih]
      have ha' : (a.1 == k) = false := Bool.eq_false_iff.mpr ha
      by_cases ht : (t.any fun e => e.1 == k) = true
      · rw [if_pos ht, if_pos (by simp [ha', ht])]
      · rw [if_neg ht, if_neg (by simp [Bool.or_eq_true, ha', ht])]

theorem assocGet_assocSet {α : Type} (m : List (String × α)) (k : String)
    (v : α) : assocGet (assocSet m k v) k = some v := by
  unfold assocSet
  by_cases h : m.any (fun e => e.1 == k)
  · rw [if_pos h, assocGet_map_update, if_pos h]
  · rw [if_neg h]
    apply assocGet_append_of_none
    unfold assocGet
    rw [List.find?_eq_none.mpr]
    · rfl
    · intro x hx
      intro hpx
      rw [List.any_eq_true] at h
      exact h ⟨x, hx, hpx⟩

theorem recordPendingHistoryEntry_lookup
    (histories : List (String × List HistoryEntry)) (k : String) (limit : Nat)
    (e : HistoryEntry) (hL : limit ≠ 0) :
    assocGet (recordPendingHistoryEntry histories k limit (some e)) k
      = some (((assocGet histories k).getD [] ++ [e]).drop
          ((((assocGet histories k).getD []).length + 1) - limit)) := by
  simp only [recordPendingHistoryEntry]
  rw [if_neg hL]
  exact assocGet_assocSet _ _ _

/-- C7: a group turn that fails the mention requirement (mention required, no
mention, no handled control command) is dropped but not silently discarded:
its sender, body, timestamp and message id are appended to the bounded
per-conversation pending history under the resolved history key, from where
the entry is readable back, and an authorized control command bypasses the
mention requirement (the turn is prepared instead of dropped). -/
theorem mention_gate_records_pending_history (ctx : FeishuMonitorCtx)
    (st : PrepareState) (message : FeishuMessage) (sender : FeishuSenderId)
    (c u : String) (gc : Option FeishuGroupConfig)
    (hc : message.chat_id = some c) (hcne : c ≠ "")
    (hu : sender.open_id = some u) (hune : u ≠ "")
    (hct : normalizeFeishuChatType message.chat_type (some c)
      = FeishuChatType.group)
    (hallowed : isChatAllowed
      { dmEnabled := ctx.dmEnabled, groupPolicy := ctx.groupPolicy,
        groupsConfig := ctx.groupsConfig } (some c)
      (some FeishuChatType.group) = true)
    (hgc : (lookupGroup ctx.groupsConfig c).orElse
      (fun _ => lookupGroup ctx.groupsConfig "*") = gc)
    (husers : (gc.bind (fun g => g.users)).getD [] = [])
    (hrbne : jsStrTrim (extractMessageText (some message)) ≠ "")
    (hreq : (gc.bind (fun g => g.requireMention)).getD
      ctx.defaultRequireMention = true) :
    ((ctx.allowTextCommands &&
        hasControlCommand (extractMessageText (some message))
          ctx.controlCommands) = false →
      prepareFeishuMessage ctx st
          { message := some message, sender := some sender } (some false)
        = droppedTurn (withHistories st
            (recordPendingHistoryEntry st.chatHistories
              (feishuGroupHistoryKey ctx message c) ctx.historyLimit
              (some (pendingEntryOf ctx sender u message)))) ∧
      (ctx.historyLimit ≠ 0 →
        assocGet (recordPendingHistoryEntry st.chatHistories
            (feishuGroupHistoryKey ctx message c) ctx.historyLimit
            (some (pendingEntryOf ctx sender u message)))
          (feishuGroupHistoryKey ctx message c)
        = some (((assocGet st.chatHistories
              (feishuGroupHistoryKey ctx message c)).getD []
            ++ [pendingEntryOf ctx sender u message]).drop
            ((((assocGet st.chatHistories
              (feishuGroupHistoryKey ctx message c)).getD []).length + 1)
              - ctx.historyLimit)))) ∧
    (ctx.allowTextCommands = true →
      hasControlCommand (extractMessageText (some message))
        ctx.controlCommands = true →
      (decide (0 < ctx.allowFrom.length) &&
        (resolveFeishuAllowListMatch ctx.allowFrom u
          (some (((ctx.userNames u).orElse
            (fun _ => sender.user_id)).getD u))).allowed) = true →
      ∃ p, prepareFeishuMessage ctx st
          { message := some message, sender := some sender } (some false)
        = { prepared := some p, state := st, pairingRepliesSent := [] } ∧
        p.commandAuthorized = true) := by
  constructor
  · intro hnocmd
    constructor
    · rw [prepare_routes_group ctx st message sender c u (some false) gc hc
        hcne hu hune hct hallowed hgc]
      exact routed_group_mention_skip ctx st message sender c u gc husers
        hrbne hreq hnocmd
    · intro hL
      exact recordPendingHistoryEntry_lookup st.chatHistories
        (feishuGroupHistoryKey ctx message c) ctx.historyLimit
        (pendingEntryOf ctx sender u message) hL
  · intro htext hcmd howner
    rw [prepare_routes_group ctx st message sender c u (some false) gc hc
      hcne hu hune hct hallowed hgc]
    refine routed_group_command_authorized ctx st message sender c u
      (some false) gc [] (((ctx.userNames u).orElse
        (fun _ => sender.user_id)).getD u) husers rfl rfl hrbne htext
      hcmd ?_
    simp [howner]

/-- C7 witness: the mention-gate theorem applied to the concrete unmentioned
group message `"hi there"` from `alice` in chat `oc_g` (mention required by
default, no command present): the turn is dropped and the entry is recorded
under the chat id. -/
theorem mention_gate_records_pending_history_witness :
    (pairingCtxExample.allowTextCommands &&
      hasControlCommand (extractMessageText (some groupMsgExample))
        pairingCtxExample.controlCommands) = false ∧
    prepareFeishuMessage pairingCtxExample emptyPrepareState
        { message := some groupMsgExample, sender := some senderAliceExample }
        (some false)
      = droppedTurn (withHistories emptyPrepareState
          (recordPendingHistoryEntry emptyPrepareState.chatHistories
            (feishuGroupHistoryKey pairingCtxExample groupMsgExample "oc_g")
            pairingCtxExample.historyLimit
            (some (pendingEntryOf pairingCtxExample senderAliceExample
              "alice" groupMsgExample)))) :=
  ⟨by decide,
    ((mention_gate_records_pending_history pairingCtxExample emptyPrepareState
      groupMsgExample senderAliceExample "oc_g" "alice" none
      rfl (by decide) rfl (by decide) (by decide) (by decide) rfl rfl
      (by decide) rfl).1 (by decide)).1⟩

/-- C8: for a group turn containing a recognized control command with command
handling enabled, the command is authorized iff the sender matches the DM
allowlist (when non-empty) or the group's user allowlist (when a non-empty
users list is configured); with neither configured the command is not
authorized; an unauthorized command drops the turn, and an authorized one
yields a prepared turn flagged `commandAuthorized`. -/
theorem group_command_authorization (ctx : FeishuMonitorCtx)
    (st : PrepareState) (message : FeishuMessage) (sender : FeishuSenderId)
    (c u : String) (wm : Option Bool) (gc : Option FeishuGroupConfig)
    (users : List String) (sn : String) (A : Bool)
    (hc : message.chat_id = some c) (hcne : c ≠ "")
    (hu : sender.open_id = some u) (hune : u ≠ "")
    (hct : normalizeFeishuChatType message.chat_type (some c)
      = FeishuChatType.group)
    (hallowed : isChatAllowed
      { dmEnabled := ctx.dmEnabled, groupPolicy := ctx.groupPolicy,
        groupsConfig := ctx.groupsConfig } (some c)
      (some FeishuChatType.group) = true)
    (hgc : (lookupGroup ctx.groupsConfig c).orElse
      (fun _ => lookupGroup ctx.groupsConfig "*") = gc)
    (husers : (gc.bind (fun g => g.users)).getD [] = users)
    (hsn : ((ctx.userNames u).orElse (fun _ => sender.user_id)).getD u = sn)
    (hga : (isFeishuUserAllowed users u (some sn) ||
      decide (users.length = 0)) = true)
    (hrbne : jsStrTrim (extractMessageText (some message)) ≠ "")
    (htext : ctx.allowTextCommands = true)
    (hcmd : hasControlCommand (extractMessageText (some message))
      ctx.controlCommands = true)
    (hA : A = ((decide (0 < ctx.allowFrom.length) &&
        (resolveFeishuAllowListMatch ctx.allowFrom u (some sn)).allowed) ||
      (decide (0 < users.length) && isFeishuUserAllowed users u (some sn)))) :
    (A = true ↔
      ((ctx.allowFrom ≠ [] ∧
        (resolveFeishuAllowListMatch ctx.allowFrom u (some sn)).allowed = true) ∨
       (users ≠ [] ∧ isFeishuUserAllowed users u (some sn) = true))) ∧
    (ctx.allowFrom = [] → users = [] → A = false) ∧
    (A = false →
      prepareFeishuMessage ctx st
        { message := some message, sender := some sender } wm
        = droppedTurn st) ∧
    (A = true →
      ∃ p, prepareFeishuMessage ctx st
          { message := some message, sender := some sender } wm
        = { prepared := some p, state := st, pairingRepliesSent := [] } ∧
        p.commandAuthorized = true) := by
  subst hA
  refine ⟨?_, ?_, ?_, ?_⟩
  · simp [Bool.or_eq_true, Bool.and_eq_true, decide_eq_true_eq,
      List.length_pos]
  · intro haf hus
    rw [haf, hus]
    simp
  · intro hnoauth
    rw [prepare_routes_group ctx st message sender c u wm gc hc hcne hu hune
      hct hallowed hgc]
    exact routed_group_command_blocked ctx st message sender c u wm gc users
      sn husers hsn hga hrbne htext hcmd hnoauth
  · intro hauth
    rw [prepare_routes_group ctx st message sender c u wm gc hc hcne hu hune
      hct hallowed hgc]
    exact routed_group_command_authorized ctx st message sender c u wm gc
      users sn husers hsn hga hrbne htext hcmd hauth

/-- C8 witness: the command-authorization theorem applied to the concrete
group command `/cmd go`: sent by the allowlisted `alice` it yields a
prepared, command-authorized turn; the neither-configured clause and the
iff characterization are instantiated at the same input. -/
theorem group_command_authorization_witness :
    hasControlCommand (extractMessageText (some groupCmdMsgExample))
        pairingCtxExample.controlCommands = true ∧
    (∃ p, prepareFeishuMessage pairingCtxExample emptyPrepareState
        { message := some groupCmdMsgExample,
          sender := some senderAliceExample } (some false)
      = { prepared := some p, state := emptyPrepareState,
          pairingRepliesSent := [] } ∧
      p.commandAuthorized = true) := by
  refine ⟨by decide, ?_⟩
  refine (group_command_authorization pairingCtxExample emptyPrepareState
    groupCmdMsgExample senderAliceExample "oc_g" "alice" (some false) none
    [] "alice" true
    rfl (by decide) rfl (by decide) (by decide) (by decide) rfl rfl rfl
    (by decide) (by decide) (by decide) (by decide) (by decide)).2.2.2 rfl

end Clawdbot
